import Mathlib

/-!
Formal model of the chapter-boundary engine of Chapterize-Audiobooks
(src/chapterize_ab.py).  Python strings are modelled as lists of
characters (`Str`); functions that can terminate the process
(`sys.exit`) or raise an exception are modelled with `Option` /
explicit result types.  Each theorem checks one claim of the design
document against this model.
-/

set_option maxRecDepth 4000

abbrev Str := List Char

/-- Boolean prefix test on character lists (used to model the leftmost
scanning of Python regular expressions and `str.startswith`). -/
def pre_of : Str → Str → Bool
  | [], _ => true
  | _ :: _, [] => false
  | a :: u, b :: v => a = b && pre_of u v

/-- Python substring test `pat in s` (`str.__contains__`): does `pat`
occur contiguously anywhere in `s`? -/
def contains_sub (pat : Str) : Str → Bool
  | [] => pre_of pat []
  | c :: rest => pre_of pat (c :: rest) || contains_sub pat rest

/-- Numeric value of a digit character. -/
def dval (c : Char) : Nat := c.toNat - 48

/-- Value of a string of decimal digits (tail-recursive accumulator). -/
def digits_val_aux (acc : Nat) : Str → Option Nat
  | [] => some acc
  | c :: rest => if c.isDigit then digits_val_aux (acc * 10 + dval c) rest else none

/-- Value of a nonempty all-digit string; `none` otherwise. -/
def digits_val : Str → Option Nat
  | [] => none
  | c :: rest => digits_val_aux 0 (c :: rest)

/-- Python `int()` on the strings this program feeds it: an optional
minus sign followed by one or more decimal digits (the inputs never
carry surrounding whitespace).  `none` models a `ValueError`. -/
def str_to_int : Str → Option Int
  | '-' :: rest => (digits_val rest).map (fun n => -(n : Int))
  | s => (digits_val s).map (fun n => (n : Int))

/-- Decimal digits of `n`, most significant first (fuel-based so that it
reduces definitionally; the fuel `n+1` always suffices). -/
def nat_str_aux : Nat → Nat → Str
  | 0, _ => []
  | fuel + 1, n => if n < 10 then [Nat.digitChar n] else nat_str_aux fuel (n / 10) ++ [Nat.digitChar (n % 10)]

/-- Python `str(n)` for a natural number. -/
def nat_str (n : Nat) : Str := nat_str_aux (n + 1) n

/-- Python `str(i)` for an integer. -/
def int_str (i : Int) : Str := if i < 0 then '-' :: nat_str (-i).toNat else nat_str i.toNat

/-- Python `'{:02}'.format n`: zero-pad to (at least) two digits. -/
def pad2 (n : Nat) : Str := if n < 10 then '0' :: nat_str n else nat_str n

/-- Python `'{:03}'.format n`: zero-pad to (at least) three digits. -/
def pad3 (n : Nat) : Str :=
  if n < 10 then '0' :: '0' :: nat_str n else if n < 100 then '0' :: nat_str n else nat_str n

/-- Python `re.compile(r'0\d').match s`: does `s` start with the
character `0` followed by a digit? -/
def match_0d : Str → Bool
  | c0 :: c1 :: _ => c0 = '0' && c1.isDigit
  | _ => false

/-- The decrement-and-repad of one field, shared verbatim by the hours
branch (lines 529-532) and the minutes branch (lines 536-539) of
`convert_time`: re-attach a leading `0` only when the original field
matched `0\d`. -/
def dec_field (p : Str) (v : Int) : Str :=
  if match_0d p then '0' :: int_str (v - 1) else int_str (v - 1)

/-- Python `s.split sep` for a single-character separator: splits on
every occurrence, keeping empty pieces; the result is never empty. -/
def split_on (sep : Char) : Str → List Str
  | [] => [[]]
  | c :: rest =>
    match split_on sep rest with
    | h :: t => if c = sep then [] :: h :: t else (c :: h) :: t
    | [] => [[c]]

/-- Python `sep.join parts` for a single-character separator. -/
def join_sep (sep : Char) : List Str → Str
  | [] => []
  | [s] => s
  | s :: rest => s ++ sep :: join_sep sep rest

/-- `convert_time` (src/chapterize_ab.py lines 509-550): subtract one
second from a sexagesimal `HH:MM:SS.mmm` time string, borrowing across
seconds, minutes and hours.  The `try` block catches every exception and
calls `sys.exit(6)`; those paths (an `IndexError` when `parts` is too
short, a `ValueError` from `int`, or a `split('.')` that does not yield
exactly two pieces) are modelled as `none`. -/
def convert_time (time : Str) : Option Str :=
  let parts := split_on ':' time
  match parts.getLast? with
  | none => none
  | some lastPart =>
    match split_on '.' lastPart with
    | [last, milliseconds] =>
      if match_0d last then
        match parts with
        | p0 :: p1 :: _ =>
          if p1 = "00".data ∧ last = "00".data then
            -- adjust the hours position; `parts` is reassigned wholesale
            match str_to_int p0 with
            | none => none
            | some v =>
              some (join_sep ':' [dec_field p0 v, "59".data, "59".data] ++ '.' :: milliseconds)
          else if last = "00".data then
            -- adjust the minutes position
            match str_to_int p1 with
            | none => none
            | some v =>
              some (join_sep ':' [p0, dec_field p1 v, "59".data] ++ '.' :: milliseconds)
          else
            -- adjust the seconds position, re-attaching a leading zero
            match str_to_int last with
            | none => none
            | some v =>
              some (join_sep ':' (parts.dropLast ++ ['0' :: int_str (v - 1)]) ++ '.' :: milliseconds)
        | _ => none
      else
        -- no leading zero on the seconds: plain str(int(last) - 1)
        match str_to_int last with
        | none => none
        | some v =>
          some (join_sep ':' (parts.dropLast ++ [int_str (v - 1)]) ++ '.' :: milliseconds)
    | _ => none

/-- C2: the design document requires every rendered field of the
decremented timestamp to keep its width, in particular
`"00:05:10.000" → "00:05:09.000"`.  The code instead renders the
seconds field of this input with a single digit: the non-borrow branch
uses a plain `str(int(last) - 1)` and drops the leading zero. -/
theorem convert_time_00_05_10 :
    convert_time "00:05:10.000".data = some "00:05:9.000".data := by rfl

/-- C3: the design document requires decrementing `"00:00:00.000"` to
fail with `TimeUnderflow`.  The code instead returns the nonsense
timestamp `"0-1:59:59.000"`: the hours branch computes
`'0' + str(int('00') - 1) = '0-1'` and no exception is raised. -/
theorem convert_time_all_zero :
    convert_time "00:00:00.000".data = some "0-1:59:59.000".data := by rfl

/-- The `%H` field of CPython's `strptime` regex, the alternation
`2[0-3]|[0-1]\d|\d`, tried in order.  Committing to the first matching
alternative is faithful here because every two-digit alternative ends in
a digit, which can never also satisfy the literal separator that follows
the field, so regex backtracking can never rescue a failed suffix. -/
def strp_H : Str → Option (Nat × Str)
  | c0 :: c1 :: rest =>
    if c0 = '2' ∧ '0' ≤ c1 ∧ c1 ≤ '3' then some (20 + dval c1, rest)
    else if (c0 = '0' ∨ c0 = '1') ∧ c1.isDigit then some (10 * dval c0 + dval c1, rest)
    else if c0.isDigit then some (dval c0, c1 :: rest)
    else none
  | [c0] => if c0.isDigit then some (dval c0, []) else none
  | [] => none

/-- The `%M` field of `strptime`: `[0-5]\d|\d`. -/
def strp_M : Str → Option (Nat × Str)
  | c0 :: c1 :: rest =>
    if '0' ≤ c0 ∧ c0 ≤ '5' ∧ c1.isDigit then some (10 * dval c0 + dval c1, rest)
    else if c0.isDigit then some (dval c0, c1 :: rest)
    else none
  | [c0] => if c0.isDigit then some (dval c0, []) else none
  | [] => none

/-- The `%S` field of `strptime`: `6[0-1]|[0-5]\d|\d` (leap seconds). -/
def strp_S : Str → Option (Nat × Str)
  | c0 :: c1 :: rest =>
    if c0 = '6' ∧ (c1 = '0' ∨ c1 = '1') then some (60 + dval c1, rest)
    else if '0' ≤ c0 ∧ c0 ≤ '5' ∧ c1.isDigit then some (10 * dval c0 + dval c1, rest)
    else if c0.isDigit then some (dval c0, c1 :: rest)
    else none
  | [c0] => if c0.isDigit then some (dval c0, []) else none
  | [] => none

/-- The `%f` field of `strptime`: `[0-9]{1,6}` taken greedily, after
which `_strptime` raises `ValueError` if any characters remain
unconsumed; the digits are right-padded with zeros to six, giving a
microsecond count. -/
def strp_f (s : Str) : Option Nat :=
  let digs := s.takeWhile Char.isDigit
  if digs = [] then none
  else if 6 < digs.length then none
  else if s.drop digs.length ≠ [] then none
  else (digits_val digs).map (fun v => v * 10 ^ (6 - digs.length))

/-- A literal character of the `strptime` format string. -/
def expect (c : Char) : Str → Option Str
  | d :: rest => if d = c then some rest else none
  | [] => none

/-- `datetime.strptime(t, "%H:%M:%S.%f")`, reduced to the four field
values `(hour, minute, second, microsecond)`; `none` models the
`ValueError` raised on a non-matching string. -/
def strptime_HMSf (s : Str) : Option (Nat × Nat × Nat × Nat) := do
  let hr ← strp_H s
  let r2 ← expect ':' hr.2
  let mr ← strp_M r2
  let r4 ← expect ':' mr.2
  let sr ← strp_S r4
  let r6 ← expect '.' sr.2
  let us ← strp_f r6
  pure (hr.1, mr.1, sr.1, us)

/-- `parse_timestamp` (src/chapterize_ab.py lines 119-123): append
`".0"` when no fraction is present, parse with
`strptime "%H:%M:%S.%f"`, and build the equivalent `timedelta`.  The
returned value is the timedelta's total length in microseconds;
`none` models the `ValueError` of `strptime`. -/
def parse_timestamp (time : Str) : Option Nat :=
  let t := if contains_sub ".".data time then time else time ++ ".0".data
  (strptime_HMSf t).map (fun p => ((p.1 * 60 + p.2.1) * 60 + p.2.2.1) * 1000000 + p.2.2.2)

/-- `format_timestamp_from_float` (src/chapterize_ab.py lines 626-633).
The Python function receives a float number of seconds; every input we
reason about is an exact multiple of one microsecond and small enough
that the float detour through `timedelta(seconds=...)` is lossless, so
the input is modelled as that microsecond count `us`.  The code reads
`td.seconds` — the seconds within the day, `(us / 10^6) % 86400`, so
whole days are dropped — and `td.microseconds = us % 10^6`, then renders
`'{:02}:{:02}:{:02},{:03}'`. -/
def format_timestamp_from_float (us : Nat) : Str :=
  let tdSeconds := (us / 1000000) % 86400
  let tdMicro := us % 1000000
  let hours := tdSeconds / 3600
  let remainder := tdSeconds % 3600
  let minutes := remainder / 60
  let seconds := remainder % 60
  let milliseconds := tdMicro / 1000
  pad2 hours ++ ':' :: (pad2 minutes ++ ':' :: (pad2 seconds ++ ',' :: pad3 milliseconds))

/-- Zero-padded `HH:MM:SS` + separator + 3-digit milliseconds text. -/
def ts_text (h m s ms : Nat) (sep : Char) : Str :=
  pad2 h ++ ':' :: (pad2 m ++ ':' :: (pad2 s ++ sep :: pad3 ms))

theorem pre_of_self_append (s t : Str) : pre_of s (s ++ t) = true := by
  induction s with
  | nil => rfl
  | cons c cs ih => simp [pre_of, ih]

theorem contains_sub_nil (s : Str) : contains_sub [] s = true := by
  cases s with
  | nil => rfl
  | cons c rest => simp [contains_sub, pre_of]

/-- A string that literally contains `pat` passes the substring test. -/
theorem contains_sub_sandwich (pat a b : Str) : contains_sub pat (a ++ (pat ++ b)) = true := by
  induction a with
  | nil =>
    cases pat with
    | nil => exact contains_sub_nil _
    | cons p ps =>
      simp only [List.nil_append, contains_sub, Bool.or_eq_true]
      exact Or.inl (pre_of_self_append (p :: ps) b)
  | cons c cs ih => simp [contains_sub, ih]

theorem pad2_eq : ∀ n, n < 100 → pad2 n = [Nat.digitChar (n / 10), Nat.digitChar (n % 10)] := by
  decide

theorem pad3_eq : ∀ n, n < 1000 →
    pad3 n = [Nat.digitChar (n / 100), Nat.digitChar (n % 100 / 10), Nat.digitChar (n % 10)] := by
  decide

theorem digitChar_isDigit : ∀ d, d < 10 → (Nat.digitChar d).isDigit = true := by decide

theorem dval_digitChar : ∀ d, d < 10 → dval (Nat.digitChar d) = d := by decide

theorem strp_H_pad2 (h : Nat) (hh : h ≤ 23) (rest : Str) :
    strp_H (pad2 h ++ rest) = some (h, rest) := by
  interval_cases h <;> rfl

theorem strp_M_pad2 (m : Nat) (hm : m ≤ 59) (rest : Str) :
    strp_M (pad2 m ++ rest) = some (m, rest) := by
  interval_cases m <;> rfl

theorem strp_S_pad2 (s : Nat) (hs : s ≤ 59) (rest : Str) :
    strp_S (pad2 s ++ rest) = some (s, rest) := by
  interval_cases s <;> rfl

theorem strp_f_pad3 (ms : Nat) (hms : ms ≤ 999) : strp_f (pad3 ms) = some (ms * 1000) := by
  have h1 : ms / 100 < 10 := by omega
  have h2 : ms % 100 / 10 < 10 := by omega
  have h3 : ms % 10 < 10 := by omega
  rw [pad3_eq ms (by omega)]
  simp [strp_f, List.takeWhile, digitChar_isDigit _ h1, digitChar_isDigit _ h2,
        digitChar_isDigit _ h3, digits_val, digits_val_aux,
        dval_digitChar _ h1, dval_digitChar _ h2, dval_digitChar _ h3]
  omega

theorem parse_ts_text (h m s ms : Nat)
    (hh : h ≤ 23) (hm : m ≤ 59) (hs : s ≤ 59) (hms : ms ≤ 999) :
    parse_timestamp (ts_text h m s ms '.') =
      some (((h * 60 + m) * 60 + s) * 1000000 + ms * 1000) := by
  have hdot : contains_sub ['.'] (pad2 h ++ ':' :: (pad2 m ++ ':' :: (pad2 s ++ '.' :: pad3 ms))) = true := by
    have e : pad2 h ++ ':' :: (pad2 m ++ ':' :: (pad2 s ++ '.' :: pad3 ms)) =
        (pad2 h ++ ':' :: (pad2 m ++ ':' :: pad2 s)) ++ (['.'] ++ pad3 ms) := by
      simp
    rw [e]
    exact contains_sub_sandwich ['.'] _ _
  simp only [parse_timestamp, ts_text, String.data]
  rw [hdot]
  simp [strptime_HMSf, strp_H_pad2 h hh, strp_M_pad2 m hm, strp_S_pad2 s hs,
        strp_f_pad3 ms hms, expect]

theorem format_ts (h m s ms : Nat)
    (hh : h ≤ 23) (hm : m ≤ 59) (hs : s ≤ 59) (hms : ms ≤ 999) :
    format_timestamp_from_float (((h * 60 + m) * 60 + s) * 1000000 + ms * 1000) =
      ts_text h m s ms ',' := by
  have e1 : (((h * 60 + m) * 60 + s) * 1000000 + ms * 1000) / 1000000 % 86400 =
      (h * 60 + m) * 60 + s := by omega
  have e2 : ((h * 60 + m) * 60 + s) / 3600 = h := by omega
  have e3 : ((h * 60 + m) * 60 + s) % 3600 / 60 = m := by omega
  have e4 : ((h * 60 + m) * 60 + s) % 3600 % 60 = s := by omega
  have e5 : (((h * 60 + m) * 60 + s) * 1000000 + ms * 1000) % 1000000 / 1000 = ms := by omega
  simp [format_timestamp_from_float, ts_text, e1, e2, e3, e4, e5]

/-- C6 counterexample: the claim says texts with an hours field of 24 or
more are accepted.  `strptime`'s `%H` pattern (`2[0-3]|[0-1]\d|\d`)
rejects `"24:00:00.000"`, so `parse_timestamp` fails on it. -/
theorem parse_timestamp_rejects_hour_24 :
    parse_timestamp "24:00:00.000".data = none := by rfl

/-- C6 (amended): for every zero-padded `HH:MM:SS.mmm` text with
`HH ≤ 23`, `MM, SS ≤ 59`, `parse_timestamp` accepts it, and
`format_timestamp_from_float` renders the parsed duration back to the
identical text with a comma fraction separator — the round trip is
exact, with no rounding.  Hours 24 and above are rejected by the parser
(`parse_timestamp_rejects_hour_24`), so no whole-day values arise. -/
theorem duration_codec_roundtrip_below_24 (h m s ms : Nat)
    (hh : h ≤ 23) (hm : m ≤ 59) (hs : s ≤ 59) (hms : ms ≤ 999) :
    ∃ v, parse_timestamp (ts_text h m s ms '.') = some v ∧
      format_timestamp_from_float v = ts_text h m s ms ',' :=
  ⟨((h * 60 + m) * 60 + s) * 1000000 + ms * 1000,
   parse_ts_text h m s ms hh hm hs hms, format_ts h m s ms hh hm hs hms⟩

theorem duration_codec_roundtrip_below_24_witness :
    1 ≤ 23 ∧ 2 ≤ 59 ∧ 3 ≤ 59 ∧ 500 ≤ 999 ∧
    (∃ v, parse_timestamp (ts_text 1 2 3 500 '.') = some v ∧
      format_timestamp_from_float v = ts_text 1 2 3 500 ',') :=
  ⟨by decide, by decide, by decide, by decide,
   duration_codec_roundtrip_below_24 1 2 3 500 (by decide) (by decide) (by decide) (by decide)⟩

/-- One timecode dictionary of the Python code.  The detector stores
`start` and `chapter_type`; the `end` key appears only once the
finalizer (or the cue-file reader) sets it, so every field is optional —
reading a missing key (Python `KeyError`) corresponds to `none`.  The
field `end_` stands for the Python key `end` (a Lean keyword). -/
structure TimeDict where
  start : Option Str := none
  chapter_type : Option Str := none
  end_ : Option Str := none
deriving DecidableEq, Repr

/-- The empty dictionary. -/
def TimeDict.empty : TimeDict := {}

/-- The four-marker tuple handed to `parse_timecodes` by
`get_language_features` (the per-language tables live in
model/models.py, outside src/, so the detector stays parametric in
them, exactly as in the source): indices 0 and 1 are prologue synonyms,
2 the chapter literal, 3 the epilogue literal. -/
structure Markers where
  m0 : Str
  m1 : Str
  m2 : Str
  m3 : Str

/-- Python `str.title()` for the ASCII strings used here: an alphabetic
character is uppercased when the preceding character is not alphabetic,
lowercased otherwise. -/
def py_title_aux (prevAlpha : Bool) : Str → Str
  | [] => []
  | c :: rest =>
    (if c.isAlpha then (if prevAlpha then c.toLower else c.toUpper) else c) ::
      py_title_aux c.isAlpha rest

/-- Python `s.title()`. -/
def py_title (s : Str) : Str := py_title_aux false s

/-- Python `s.replace(old, new)` for single-character arguments. -/
def py_replace (a b : Char) (s : Str) : Str :=
  s.map (fun c => if c = a then b else c)

/-- Python regex `\s` on the ASCII inputs that occur here. -/
def is_space (c : Char) : Bool :=
  c == ' ' || c == '\t' || c == '\n' || c == '\r' || c == '\x0b' || c == '\x0c'

/-- Try the srt start-time regex `\d\d:\d\d:\d\d,\d+(?=\s-)` at the head
of `s`: eight literal/class characters, one or more digits taken
greedily (backtracking to fewer digits can never help: the next digit
fails the lookahead's `\s`), then the lookahead demands one whitespace
character followed by `-`.  Returns match group 0. -/
def ts_at (s : Str) : Option Str :=
  match s with
  | d1 :: d2 :: c1 :: d3 :: d4 :: c2 :: d5 :: d6 :: cm :: rest =>
    if d1.isDigit && d2.isDigit && c1 == ':' && d3.isDigit && d4.isDigit && c2 == ':'
        && d5.isDigit && d6.isDigit && cm == ',' then
      let digs := rest.takeWhile Char.isDigit
      if digs.isEmpty then none
      else
        match rest.drop digs.length with
        | w :: '-' :: _ =>
          if is_space w then some ([d1, d2, c1, d3, d4, c2, d5, d6, cm] ++ digs) else none
        | _ => none
    else none
  | _ => none

/-- `re.search(r'\d\d:\d\d:\d\d,\d+(?=\s-)', line)`: leftmost match. -/
def search_ts : Str → Option Str
  | [] => none
  | c :: rest =>
    match ts_at (c :: rest) with
    | some g => some g
    | none => search_ts rest

/-- The chapter label: `markers[2].title()`, a space, and the counter —
zero-padded to two digits only while the counter is below ten. -/
def chapter_label (mk : Markers) (counter : Nat) : Str :=
  py_title mk.m2 ++ ' ' :: (if counter < 10 then '0' :: nat_str counter else nat_str counter)

/-- The boundary guard of the scan (lines 734-740): the lookahead line
contains no excluded phrase and contains at least one of the four
markers. -/
def detect_guard (excluded : List Str) (mk : Markers) (next : Str) : Bool :=
  (!(excluded.any (fun x => contains_sub x next))) &&
  (contains_sub mk.m0 next || contains_sub mk.m1 next ||
   contains_sub mk.m2 next || contains_sub mk.m3 next)

/-- The classification chain of the scan (lines 744-757): the label for
this boundary and the updated chapter counter.  The epilogue branch
reproduces the source faithfully: it assigns `markers[2].title()`. -/
def detect_ct (mk : Markers) (next : Str) (counter : Nat) : Str × Nat :=
  if contains_sub mk.m0 next || contains_sub mk.m1 next then (py_title mk.m0, counter)
  else if contains_sub mk.m2 next then (chapter_label mk counter, counter + 1)
  else if contains_sub mk.m3 next then (py_title mk.m2, counter)
  else (([] : Str), counter)

/-- The dictionary appended when `timecodes` is still empty (line 761):
the start is overridden to the literal `00:00:00`. -/
def first_dict (mk : Markers) (next : Str) (counter : Nat) : TimeDict :=
  { start := some "00:00:00".data, chapter_type := some (detect_ct mk next counter).1 }

/-- The dictionary appended for every later boundary (line 763): the
extracted start, with the comma swapped for a dot (line 742). -/
def later_dict (mk : Markers) (next : Str) (counter : Nat) (g0 : Str) : TimeDict :=
  { start := some (py_replace ',' '.' g0), chapter_type := some (detect_ct mk next counter).1 }

/-- The scanning loop of `parse_timecodes` (lines 732-769): walk the
transcript with one line of lookahead, carrying the accumulated list and
the chapter counter exactly as the Python loop does.  A lookahead that
matches a marker but whose own line has no parsable start timestamp is
skipped without touching the counter. -/
def detect_loop (excluded : List Str) (mk : Markers) : List Str → List TimeDict → Nat → List TimeDict
  | [], acc, _ => acc
  | [_], acc, _ => acc
  | line :: next :: rest, acc, counter =>
    if detect_guard excluded mk next then
      match search_ts line with
      | some g0 =>
        detect_loop excluded mk (next :: rest)
          (acc ++ [if acc.isEmpty then first_dict mk next counter else later_dict mk next counter g0])
          (detect_ct mk next counter).2
      | none => detect_loop excluded mk (next :: rest) acc counter
    else detect_loop excluded mk (next :: rest) acc counter

/-- The end-marker loop of `parse_timecodes` (lines 771-774): every
entry except the last receives `end = convert_time(next start)`.
`none` models the `sys.exit` inside `convert_time` (or the `KeyError`
of a missing `start`, which cannot occur for detector output). -/
def add_ends : List TimeDict → Option (List TimeDict)
  | [] => some []
  | [d] => some [d]
  | d :: d2 :: rest => do
    let s ← d2.start
    let e ← convert_time s
    let tl ← add_ends (d2 :: rest)
    pure ({ d with end_ := some e } :: tl)

/-- `parse_timecodes` (lines 706-780).  The guard at the top exits
(code 13) when the language's excluded-phrase list is empty/undefined;
the missing-marker half of that guard cannot fire for a fully populated
`Markers` value.  After the scan the end-marker loop runs, and an empty
result exits with code 8; both exits are modelled as `none`. -/
def parse_timecodes (srt_content : List Str) (excluded : List Str) (mk : Markers) :
    Option (List TimeDict) :=
  if excluded.isEmpty then none
  else do
    let tc ← add_ends (detect_loop excluded mk srt_content [] 1)
    if tc.isEmpty then none else some tc

/-- Line 572 of `apply_chapters`: the last chapter's `end` is set to the
recording's total duration, rendered by `format_timestamp_from_float`
and with the comma fraction separator replaced by a dot.  `none` models
the `IndexError` of `timecodes[-1]` on an empty list. -/
def apply_chapters_end (timecodes : List TimeDict) (us : Nat) : Option (List TimeDict) :=
  match timecodes.getLast? with
  | none => none
  | some d =>
    some (timecodes.dropLast ++
      [{ d with end_ := some (py_replace ',' '.' (format_timestamp_from_float us)) }])

/-- C4: a lookahead line that contains only the epilogue marker
(marker[3]) should yield the label "Epilogue" (`markers[3].title()`).
The code's epilogue branch — its own comment reads `# Epilogue` —
instead assigns `markers[2].title()`, the chapter literal, so with the
standard English table the boundary is labelled "Chapter". -/
theorem epilogue_labeled_chapter :
    parse_timecodes ["00:10:00,000 --> 00:10:05,000".data, "the epilogue begins".data]
        ["intro music".data]
        ⟨"prologue".data, "preface".data, "chapter".data, "epilogue".data⟩ =
      some [{ start := some "00:00:00".data, chapter_type := some "Chapter".data }] ∧
    "Chapter".data ≠ "Epilogue".data := by
  exact ⟨by rfl, by decide⟩

/-- `detect_loop` with the first-entry override removed: every emitted
entry carries the start extracted from its own timestamp line.  C8 is
stated by comparing `detect_loop` against this variant. -/
def detect_loop_raw (excluded : List Str) (mk : Markers) : List Str → List TimeDict → Nat → List TimeDict
  | [], acc, _ => acc
  | [_], acc, _ => acc
  | line :: next :: rest, acc, counter =>
    if detect_guard excluded mk next then
      match search_ts line with
      | some g0 =>
        detect_loop_raw excluded mk (next :: rest)
          (acc ++ [later_dict mk next counter g0]) (detect_ct mk next counter).2
      | none => detect_loop_raw excluded mk (next :: rest) acc counter
    else detect_loop_raw excluded mk (next :: rest) acc counter

/-- Relation between a `detect_loop` accumulator and the matching
`detect_loop_raw` accumulator: identical except that the head's start
has been overridden to `00:00:00`. -/
def ov_rel (l r : List TimeDict) : Prop :=
  (l = [] ∧ r = []) ∨
  (∃ d d' t, l = d :: t ∧ r = d' :: t ∧ d.start = some "00:00:00".data ∧
    d.chapter_type = d'.chapter_type ∧ d.end_ = d'.end_)

theorem detect_loop_ov (excluded : List Str) (mk : Markers) :
    ∀ (srt : List Str) (acc acc' : List TimeDict) (counter : Nat),
      ov_rel acc acc' →
      ov_rel (detect_loop excluded mk srt acc counter)
        (detect_loop_raw excluded mk srt acc' counter) := by
  intro srt
  induction srt with
  | nil => intro acc acc' c hrel; exact hrel
  | cons line tail ih =>
    intro acc acc' c hrel
    cases tail with
    | nil => exact hrel
    | cons next rest =>
      simp only [detect_loop, detect_loop_raw]
      cases hg : detect_guard excluded mk next with
      | false => simp only [Bool.false_eq_true, if_neg, reduceIte]; exact ih _ _ _ hrel
      | true =>
        simp only [if_pos]
        cases hs : search_ts line with
        | none => exact ih _ _ _ hrel
        | some g0 =>
          rcases hrel with ⟨h1, h2⟩ | ⟨d, d', t, h1, h2, h3, h4, h5⟩
          · subst h1; subst h2
            apply ih
            exact Or.inr ⟨first_dict mk next c, later_dict mk next c g0, [], rfl, rfl, rfl, rfl, rfl⟩
          · subst h1; subst h2
            apply ih
            exact Or.inr ⟨d, d', t ++ [later_dict mk next c g0], rfl, rfl, h3, h4, h5⟩

theorem add_ends_fields :
    ∀ (l out : List TimeDict), add_ends l = some out →
      out.length = l.length ∧
      ∀ i, (out.get? i).map TimeDict.start = (l.get? i).map TimeDict.start ∧
        (out.get? i).map TimeDict.chapter_type = (l.get? i).map TimeDict.chapter_type := by
  intro l
  induction l with
  | nil =>
    intro out h
    simp [add_ends] at h
    subst h
    exact ⟨rfl, fun i => ⟨rfl, rfl⟩⟩
  | cons d tail ih =>
    intro out h
    cases tail with
    | nil =>
      simp [add_ends] at h
      subst h
      exact ⟨rfl, fun i => ⟨rfl, rfl⟩⟩
    | cons d2 rest =>
      cases hst : d2.start with
      | none => simp [add_ends, hst] at h
      | some s =>
        cases hcv : convert_time s with
        | none => simp [add_ends, hst, hcv] at h
        | some e =>
          cases hae : add_ends (d2 :: rest) with
          | none => simp [add_ends, hst, hcv, hae] at h
          | some tl =>
            have heq : add_ends (d :: d2 :: rest) = some ({ d with end_ := some e } :: tl) := by
              simp [add_ends, hst, hcv, hae]
            rw [heq] at h
            injection h with h
            subst h
            obtain ⟨hlen, hidx⟩ := ih tl hae
            refine ⟨by simp [hlen], ?_⟩
            intro i
            cases i with
            | zero => exact ⟨rfl, rfl⟩
            | succ j => exact hidx j

/-- C8: whenever `parse_timecodes` succeeds, the first boundary's start
is the override literal `00:00:00` — equal to `00:00:00.000` as a
duration — no matter which start was extracted for it, while every
later boundary's start is exactly the start the override-free scan
(`detect_loop_raw`) extracts from its own timestamp line. -/
theorem first_boundary_override (srt excluded : List Str) (mk : Markers)
    (out : List TimeDict) (h : parse_timecodes srt excluded mk = some out) :
    ((out.get? 0).map TimeDict.start = some (some "00:00:00".data)) ∧
    parse_timestamp "00:00:00".data = parse_timestamp "00:00:00.000".data ∧
    ∀ i, 1 ≤ i →
      (out.get? i).map TimeDict.start =
        ((detect_loop_raw excluded mk srt [] 1).get? i).map TimeDict.start := by
  by_cases hex : excluded.isEmpty
  · simp [parse_timecodes, hex] at h
  · cases hae : add_ends (detect_loop excluded mk srt [] 1) with
    | none => simp [parse_timecodes, hex, hae] at h
    | some tc =>
      simp [parse_timecodes, hex, hae] at h
      obtain ⟨htc, hout⟩ := h
      subst hout
      obtain ⟨hlen, hidx⟩ := add_ends_fields _ _ hae
      have hov := detect_loop_ov excluded mk srt [] [] 1 (Or.inl ⟨rfl, rfl⟩)
      rcases hov with ⟨hp, _⟩ | ⟨d, d', t, hp, hr, h3, h4, h5⟩
      · exfalso
        rw [hp] at hae
        simp [add_ends] at hae
        subst hae
        exact htc rfl
      · refine ⟨?_, rfl, ?_⟩
        · have h0 := (hidx 0).1
          rw [hp] at h0
          rw [h0]
          simp [h3]
        · intro i hi
          have hI := (hidx i).1
          rw [hp] at hI
          rw [hI, hr]
          cases i with
          | zero => omega
          | succ j => rfl

/-- The four-marker table of the §8 example (`prologue`, `preface`,
`chapter`, `epilogue`). -/
def markers_en : Markers := ⟨"prologue".data, "preface".data, "chapter".data, "epilogue".data⟩

/-- A nonempty excluded-phrase list (the guard of `parse_timecodes`
exits when the excluded list is empty). -/
def excluded_en : List Str := ["intro music".data]

/-- The §8 example transcript, lowercased as in real transcripts. -/
def srt_example : List Str :=
  ["00:00:01,000 --> 00:00:03,000".data, "chapter one begins".data,
   "00:10:00,000 --> 00:10:05,000".data, "chapter two starts".data]

/-- What `parse_timecodes` produces on `srt_example`. -/
def out_example : List TimeDict :=
  [⟨some "00:00:00".data, some "Chapter 01".data, some "00:9:59.000".data⟩,
   ⟨some "00:10:00.000".data, some "Chapter 02".data, none⟩]

theorem first_boundary_override_witness :
    parse_timecodes srt_example excluded_en markers_en = some out_example ∧
    (((out_example.get? 0).map TimeDict.start = some (some "00:00:00".data)) ∧
      parse_timestamp "00:00:00".data = parse_timestamp "00:00:00.000".data ∧
      ∀ i, 1 ≤ i →
        ((out_example.get? i).map TimeDict.start =
          ((detect_loop_raw excluded_en markers_en srt_example [] 1).get? i).map TimeDict.start)) :=
  ⟨by rfl, first_boundary_override srt_example excluded_en markers_en out_example (by rfl)⟩

/-- Provenance tag for one emitted boundary: `some counter` exactly when
the chapter branch (line 748-752) fires for this lookahead line. -/
def detect_tag (mk : Markers) (next : Str) (counter : Nat) : Option Nat :=
  if contains_sub mk.m0 next || contains_sub mk.m1 next then none
  else if contains_sub mk.m2 next then some counter
  else none

/-- `detect_loop` instrumented with each entry's provenance tag;
`detect_loop_eq_tagged` shows it projects onto `detect_loop`. -/
def detect_loop_tagged (excluded : List Str) (mk : Markers) :
    List Str → List (TimeDict × Option Nat) → Nat → List (TimeDict × Option Nat)
  | [], acc, _ => acc
  | [_], acc, _ => acc
  | line :: next :: rest, acc, counter =>
    if detect_guard excluded mk next then
      match search_ts line with
      | some g0 =>
        detect_loop_tagged excluded mk (next :: rest)
          (acc ++ [((if acc.isEmpty then first_dict mk next counter else later_dict mk next counter g0),
            detect_tag mk next counter)])
          (detect_ct mk next counter).2
      | none => detect_loop_tagged excluded mk (next :: rest) acc counter
    else detect_loop_tagged excluded mk (next :: rest) acc counter

theorem detect_loop_eq_tagged (excluded : List Str) (mk : Markers) :
    ∀ (srt : List Str) (acc : List (TimeDict × Option Nat)) (counter : Nat),
      detect_loop excluded mk srt (acc.map Prod.fst) counter =
        (detect_loop_tagged excluded mk srt acc counter).map Prod.fst := by
  intro srt
  induction srt with
  | nil => intro acc c; rfl
  | cons line tail ih =>
    intro acc c
    cases tail with
    | nil => rfl
    | cons next rest =>
      simp only [detect_loop, detect_loop_tagged]
      cases hg : detect_guard excluded mk next with
      | false => exact ih _ _
      | true =>
        cases hs : search_ts line with
        | none => exact ih _ _
        | some g0 =>
          have hemp : (acc.map Prod.fst).isEmpty = acc.isEmpty := by
            cases acc <;> rfl
          rw [hemp]
          have hrec := ih (acc ++
            [((if acc.isEmpty then first_dict mk next c else later_dict mk next c g0),
              detect_tag mk next c)]) (detect_ct mk next c).2
          rw [List.map_append] at hrec
          simpa using hrec

/-- Coherence of the tag with the classification chain: either the tag
is `none` and the counter is unchanged, or the tag is `some counter`,
the label is the chapter label for `counter`, and the counter advances
by one. -/
theorem detect_tag_ct (mk : Markers) (next : Str) (counter : Nat) :
    (detect_tag mk next counter = none ∧ (detect_ct mk next counter).2 = counter) ∨
    (detect_tag mk next counter = some counter ∧
      (detect_ct mk next counter).1 = chapter_label mk counter ∧
      (detect_ct mk next counter).2 = counter + 1) := by
  unfold detect_tag detect_ct
  by_cases h1 : (contains_sub mk.m0 next || contains_sub mk.m1 next) = true
  · rw [if_pos h1, if_pos h1]; exact Or.inl ⟨rfl, rfl⟩
  · rw [if_neg h1, if_neg h1]
    by_cases h2 : contains_sub mk.m2 next = true
    · rw [if_pos h2, if_pos h2]; exact Or.inr ⟨rfl, rfl, rfl⟩
    · rw [if_neg h2, if_neg h2]
      by_cases h3 : contains_sub mk.m3 next = true
      · rw [if_pos h3]; exact Or.inl ⟨rfl, rfl⟩
      · rw [if_neg h3]; exact Or.inl ⟨rfl, rfl⟩

theorem detect_loop_tagged_range (excluded : List Str) (mk : Markers) :
    ∀ (srt : List Str) (acc : List (TimeDict × Option Nat)) (counter : Nat),
      ∃ k, (detect_loop_tagged excluded mk srt acc counter).filterMap Prod.snd =
        acc.filterMap Prod.snd ++ List.range' counter k := by
  intro srt
  induction srt with
  | nil => intro acc c; exact ⟨0, by simp [detect_loop_tagged]⟩
  | cons line tail ih =>
    intro acc c
    cases tail with
    | nil => exact ⟨0, by simp [detect_loop_tagged]⟩
    | cons next rest =>
      simp only [detect_loop_tagged]
      cases hg : detect_guard excluded mk next with
      | false => exact ih _ _
      | true =>
        cases hs : search_ts line with
        | none => exact ih _ _
        | some g0 =>
          show ∃ k, List.filterMap Prod.snd (detect_loop_tagged excluded mk (next :: rest)
              (acc ++ [((if acc.isEmpty then first_dict mk next c else later_dict mk next c g0),
                detect_tag mk next c)]) (detect_ct mk next c).2) =
            List.filterMap Prod.snd acc ++ List.range' c k
          rcases detect_tag_ct mk next c with ⟨ht, hc2⟩ | ⟨ht, _, hc2⟩
          · rw [ht, hc2]
            obtain ⟨k, hk⟩ := ih (acc ++
              [((if acc.isEmpty then first_dict mk next c else later_dict mk next c g0),
                (none : Option Nat))]) c
            refine ⟨k, ?_⟩
            rw [hk]
            simp
          · rw [ht, hc2]
            obtain ⟨k, hk⟩ := ih (acc ++
              [((if acc.isEmpty then first_dict mk next c else later_dict mk next c g0),
                some c)]) (c + 1)
            refine ⟨k + 1, ?_⟩
            rw [hk, List.range'_succ]
            simp

theorem detect_loop_tagged_labels (excluded : List Str) (mk : Markers) :
    ∀ (srt : List Str) (acc : List (TimeDict × Option Nat)) (counter : Nat),
      (∀ p ∈ acc, ∀ n, p.2 = some n → p.1.chapter_type = some (chapter_label mk n)) →
      ∀ p ∈ detect_loop_tagged excluded mk srt acc counter, ∀ n, p.2 = some n →
        p.1.chapter_type = some (chapter_label mk n) := by
  intro srt
  induction srt with
  | nil => intro acc c hacc; exact hacc
  | cons line tail ih =>
    intro acc c hacc
    cases tail with
    | nil => exact hacc
    | cons next rest =>
      simp only [detect_loop_tagged]
      cases hg : detect_guard excluded mk next with
      | false => exact ih _ _ hacc
      | true =>
        cases hs : search_ts line with
        | none => exact ih _ _ hacc
        | some g0 =>
          apply ih
          intro p hp n hn
          rcases List.mem_append.mp hp with hp' | hp'
          · exact hacc p hp' n hn
          · have hpe : p = ((if acc.isEmpty then first_dict mk next c else later_dict mk next c g0),
                detect_tag mk next c) := by simpa using hp'
            subst hpe
            simp only at hn
            rcases detect_tag_ct mk next c with ⟨ht, _⟩ | ⟨ht, hct1, _⟩
            · rw [ht] at hn; cases hn
            · rw [ht] at hn
              injection hn with hn
              subst hn
              cases hemp : acc.isEmpty <;> simp [first_dict, later_dict, hct1]

/-- C10: chapter numbering is gapless.  The tagged scan projects onto
the real one; every entry emitted by the chapter branch with tag `n`
carries the label "Chapter n"; and the sequence of tags is exactly
`1, 2, …, k` in order — a chapter-marker candidate whose timestamp line
fails to parse is discarded without advancing the counter, so no number
is skipped. -/
theorem chapter_numbering_gapless (srt excluded : List Str) (mk : Markers) :
    detect_loop excluded mk srt [] 1 =
      (detect_loop_tagged excluded mk srt [] 1).map Prod.fst ∧
    (∀ p ∈ detect_loop_tagged excluded mk srt [] 1, ∀ n, p.2 = some n →
      p.1.chapter_type = some (chapter_label mk n)) ∧
    (detect_loop_tagged excluded mk srt [] 1).filterMap Prod.snd =
      List.range' 1 ((detect_loop_tagged excluded mk srt [] 1).filterMap Prod.snd).length := by
  refine ⟨?_, ?_, ?_⟩
  · simpa using detect_loop_eq_tagged excluded mk srt [] 1
  · exact detect_loop_tagged_labels excluded mk srt [] 1 (by intro p hp; cases hp)
  · obtain ⟨k, hk⟩ := detect_loop_tagged_range excluded mk srt [] 1
    rw [hk]
    simp [List.length_range']

/-- A transcript in which the second chapter candidate's timestamp line
is unparsable ("bogus line"), so the candidate is discarded: the
emitted labels are still "Chapter 01", "Chapter 02" with no gap. -/
def srt_skip_example : List Str :=
  ["00:00:01,000 --> 00:00:03,000".data, "chapter one".data,
   "bogus line".data, "chapter two".data,
   "00:10:00,000 --> 00:10:05,000".data, "chapter three".data]

theorem chapter_numbering_gapless_witness :
    detect_loop excluded_en markers_en srt_skip_example [] 1 =
      (detect_loop_tagged excluded_en markers_en srt_skip_example [] 1).map Prod.fst ∧
    (∀ p ∈ detect_loop_tagged excluded_en markers_en srt_skip_example [] 1, ∀ n, p.2 = some n →
      p.1.chapter_type = some (chapter_label markers_en n)) ∧
    (detect_loop_tagged excluded_en markers_en srt_skip_example [] 1).filterMap Prod.snd =
      List.range' 1
        ((detect_loop_tagged excluded_en markers_en srt_skip_example [] 1).filterMap Prod.snd).length :=
  chapter_numbering_gapless srt_skip_example excluded_en markers_en

theorem split_on_ne_nil (sep : Char) (s : Str) : split_on sep s ≠ [] := by
  cases s with
  | nil => simp [split_on]
  | cons c rest =>
    simp only [split_on]
    cases split_on sep rest with
    | nil => simp
    | cons x t => by_cases hc : c = sep <;> simp [hc]

theorem split_on_no_sep (sep : Char) (a : Str) (h : sep ∉ a) : split_on sep a = [a] := by
  induction a with
  | nil => rfl
  | cons c rest ih =>
    have h1 : ¬c = sep := fun e => h (e ▸ List.mem_cons_self c rest)
    have h2 : sep ∉ rest := fun hm => h (List.mem_cons_of_mem _ hm)
    simp [split_on, ih h2, h1]

theorem split_on_append (sep : Char) (a b : Str) (h : sep ∉ a) :
    split_on sep (a ++ sep :: b) = a :: split_on sep b := by
  induction a with
  | nil =>
    cases hsp : split_on sep b with
    | nil => exact absurd hsp (split_on_ne_nil _ _)
    | cons x t => simp [split_on, hsp]
  | cons c rest ih =>
    have h1 : ¬c = sep := fun e => h (e ▸ List.mem_cons_self c rest)
    have h2 : sep ∉ rest := fun hm => h (List.mem_cons_of_mem _ hm)
    have hstep : split_on sep ((c :: rest) ++ sep :: b) =
        match split_on sep (rest ++ sep :: b) with
        | x :: t => if c = sep then [] :: x :: t else (c :: x) :: t
        | [] => [[c]] := rfl
    rw [hstep, ih h2]
    simp [h1]

/-- Millisecond value of an `H:M:S.F` text whose four fields are
nonempty digit strings (of any width): the time-value interpretation
used to state the "minus exactly one second" part of the finalizer
claim, with `F` read as a (three-digit) millisecond count. -/
def valMs (s : Str) : Option Nat :=
  match split_on ':' s with
  | [hs, ms, rest] =>
    match split_on '.' rest with
    | [ss, fs] => do
      let h ← digits_val hs
      let m ← digits_val ms
      let sv ← digits_val ss
      let f ← digits_val fs
      pure (((h * 60 + m) * 60 + sv) * 1000 + f)
    | _ => none
  | _ => none

theorem pad2_chars : ∀ n, n < 100 → (':' ∈ pad2 n → False) ∧ ('.' ∈ pad2 n → False) := by
  decide

theorem pad3_chars : ∀ n, n < 1000 → (':' ∈ pad3 n → False) ∧ ('.' ∈ pad3 n → False) := by
  decide

theorem digits_val_pad2 : ∀ n, n < 100 → digits_val (pad2 n) = some n := by decide

theorem digits_val_pad3 : ∀ n, n < 1000 → digits_val (pad3 n) = some n := by decide

theorem str_to_int_pad2 : ∀ n, n < 100 → str_to_int (pad2 n) = some (n : Int) := by decide

theorem match_0d_pad2_small : ∀ n, n < 10 → match_0d (pad2 n) = true := by decide

theorem match_0d_pad2_large : ∀ n, 10 ≤ n → n < 100 → match_0d (pad2 n) = false := by decide

theorem pad2_eq_00 : ∀ n, n < 100 → (pad2 n = "00".data ↔ n = 0) := by decide

theorem dec_field_props : ∀ n, 1 ≤ n → n < 100 →
    digits_val (dec_field (pad2 n) (n : Int)) = some (n - 1) ∧
    (':' ∈ dec_field (pad2 n) (n : Int) → False) ∧
    ('.' ∈ dec_field (pad2 n) (n : Int) → False) := by decide

theorem sec0_props : ∀ n : Nat, 1 ≤ n → n < 10 →
    digits_val ('0' :: int_str ((n : Int) - 1)) = some ((n - 1 : Nat)) ∧
    (':' ∈ '0' :: int_str ((n : Int) - 1) → False) ∧
    ('.' ∈ '0' :: int_str ((n : Int) - 1) → False) := by decide

theorem sec1_props : ∀ n : Nat, 10 ≤ n → n < 60 →
    digits_val (int_str ((n : Int) - 1)) = some ((n - 1 : Nat)) ∧
    (':' ∈ int_str ((n : Int) - 1) → False) ∧
    ('.' ∈ int_str ((n : Int) - 1) → False) := by decide

/-- Evaluate `valMs` on a three-field colon join followed by a dot and a
fraction field. -/
theorem valMs_mk (a b c f2 : Str) (va vb vc vf : Nat)
    (ha : digits_val a = some va) (hb : digits_val b = some vb)
    (hc : digits_val c = some vc) (hf : digits_val f2 = some vf)
    (hna : ':' ∈ a → False) (hnb : ':' ∈ b → False)
    (hnc : ':' ∈ c → False) (hnf : ':' ∈ f2 → False)
    (hdc : '.' ∈ c → False) (hdf : '.' ∈ f2 → False) :
    valMs (join_sep ':' [a, b, c] ++ '.' :: f2) =
      some (((va * 60 + vb) * 60 + vc) * 1000 + vf) := by
  have hshape : join_sep ':' [a, b, c] ++ '.' :: f2 =
      a ++ ':' :: (b ++ ':' :: (c ++ '.' :: f2)) := by
    simp [join_sep]
  have hlast : ':' ∉ c ++ '.' :: f2 := by
    intro hmem
    rcases List.mem_append.mp hmem with h1 | h1
    · exact hnc h1
    · rcases List.mem_cons.mp h1 with h2 | h2
      · exact absurd h2 (by decide)
      · exact hnf h2
  have hsp1 : split_on ':' (a ++ ':' :: (b ++ ':' :: (c ++ '.' :: f2))) =
      [a, b, c ++ '.' :: f2] := by
    rw [split_on_append ':' _ _ hna, split_on_append ':' _ _ hnb,
        split_on_no_sep ':' _ hlast]
  have hsp2 : split_on '.' (c ++ '.' :: f2) = [c, f2] := by
    rw [split_on_append '.' _ _ hdc, split_on_no_sep '.' _ hdf]
  rw [hshape]
  simp [valMs, hsp1, hsp2, ha, hb, hc, hf]

/-- On a well-formed zero-padded `HH:MM:SS.mmm` text that is not
all-zero, `convert_time` succeeds and its output — whatever its textual
widths — denotes exactly one second less than the input. -/
theorem convert_time_ts (h m s ms : Nat) (hh : h ≤ 99) (hm : m ≤ 59) (hs : s ≤ 59)
    (hms : ms ≤ 999) (hnz : ¬(h = 0 ∧ m = 0 ∧ s = 0)) :
    ∃ out, convert_time (ts_text h m s ms '.') = some out ∧
      valMs out = some (((h * 60 + m) * 60 + s) * 1000 + ms - 1000) := by
  have hph := pad2_chars h (by omega)
  have hpm := pad2_chars m (by omega)
  have hps := pad2_chars s (by omega)
  have hpf := pad3_chars ms (by omega)
  have hlast3 : ':' ∉ pad2 s ++ '.' :: pad3 ms := by
    intro hmem
    rcases List.mem_append.mp hmem with h1 | h1
    · exact hps.1 h1
    · rcases List.mem_cons.mp h1 with h2 | h2
      · exact absurd h2 (by decide)
      · exact hpf.1 h2
  have hsplit : split_on ':' (ts_text h m s ms '.') =
      [pad2 h, pad2 m, pad2 s ++ '.' :: pad3 ms] := by
    show split_on ':' (pad2 h ++ ':' :: (pad2 m ++ ':' :: (pad2 s ++ '.' :: pad3 ms))) = _
    rw [split_on_append ':' _ _ hph.1, split_on_append ':' _ _ hpm.1,
        split_on_no_sep ':' _ hlast3]
  have hsplit2 : split_on '.' (pad2 s ++ '.' :: pad3 ms) = [pad2 s, pad3 ms] := by
    rw [split_on_append '.' _ _ hps.2, split_on_no_sep '.' _ hpf.2]
  have hv59 : digits_val "59".data = some 59 := by decide
  have hn59 : (':' ∈ "59".data → False) ∧ ('.' ∈ "59".data → False) := by decide
  by_cases hs0 : s = 0
  · subst hs0
    have hsplit2' : split_on '.' ('0' :: '0' :: '.' :: pad3 ms) = ['0', '0'] :: [pad3 ms] := by
      have h1 := split_on_append '.' (['0', '0'] : Str) (pad3 ms) (by decide)
      rw [split_on_no_sep '.' _ hpf.2] at h1
      exact h1
    have hm00t : match_0d (['0', '0'] : Str) = true := by decide
    by_cases hm0 : m = 0
    · subst hm0
      have hh1 : 1 ≤ h := by omega
      have hd := dec_field_props h hh1 (by omega)
      have hm00 : match_0d (pad2 0) = true := by decide
      have h00 : pad2 0 = "00".data := by decide
      refine ⟨join_sep ':' [dec_field (pad2 h) (h : Int), "59".data, "59".data] ++ '.' :: pad3 ms,
        ?_, ?_⟩
      · simp [convert_time, hsplit, hsplit2', hm00, hm00t, h00, str_to_int_pad2 h (by omega)]
      · rw [valMs_mk (dec_field (pad2 h) (h : Int)) "59".data "59".data (pad3 ms)
            (h - 1) 59 59 ms hd.1 hv59 hv59 (digits_val_pad3 ms (by omega))
            hd.2.1 hn59.1 hn59.1 hpf.1 hn59.2 hpf.2]
        simp only [Option.some.injEq]
        omega
    · have hm1 : 1 ≤ m := by omega
      have hd := dec_field_props m hm1 (by omega)
      have hm00 : match_0d (pad2 0) = true := by decide
      have h00 : pad2 0 = "00".data := by decide
      have hne : ¬(pad2 m = "00".data) := by
        rw [pad2_eq_00 m (by omega)]; omega
      refine ⟨join_sep ':' [pad2 h, dec_field (pad2 m) (m : Int), "59".data] ++ '.' :: pad3 ms,
        ?_, ?_⟩
      · simp [convert_time, hsplit, hsplit2', hm00, hm00t, h00, hne, str_to_int_pad2 m (by omega)]
      · rw [valMs_mk (pad2 h) (dec_field (pad2 m) (m : Int)) "59".data (pad3 ms)
            h (m - 1) 59 ms (digits_val_pad2 h (by omega)) hd.1 hv59
            (digits_val_pad3 ms (by omega)) hph.1 hd.2.1 hn59.1 hpf.1 hn59.2 hpf.2]
        simp only [Option.some.injEq]
        omega
  · by_cases hs10 : s < 10
    · have hs1 : 1 ≤ s := by omega
      have hsp := sec0_props s hs1 hs10
      have hmt : match_0d (pad2 s) = true := match_0d_pad2_small s hs10
      have hne : ¬(pad2 s = "00".data) := by
        rw [pad2_eq_00 s (by omega)]; omega
      refine ⟨join_sep ':' [pad2 h, pad2 m, '0' :: int_str ((s : Int) - 1)] ++ '.' :: pad3 ms,
        ?_, ?_⟩
      · simp [convert_time, hsplit, hsplit2, hmt, hne, str_to_int_pad2 s (by omega)]
      · rw [valMs_mk (pad2 h) (pad2 m) ('0' :: int_str ((s : Int) - 1)) (pad3 ms)
            h m (s - 1) ms (digits_val_pad2 h (by omega)) (digits_val_pad2 m (by omega))
            hsp.1 (digits_val_pad3 ms (by omega)) hph.1 hpm.1 hsp.2.1 hpf.1 hsp.2.2 hpf.2]
        simp only [Option.some.injEq]
        omega
    · have hsp := sec1_props s (by omega) (by omega)
      have hmt : match_0d (pad2 s) = false := match_0d_pad2_large s (by omega) (by omega)
      refine ⟨join_sep ':' [pad2 h, pad2 m, int_str ((s : Int) - 1)] ++ '.' :: pad3 ms,
        ?_, ?_⟩
      · simp [convert_time, hsplit, hsplit2, hmt, str_to_int_pad2 s (by omega)]
      · rw [valMs_mk (pad2 h) (pad2 m) (int_str ((s : Int) - 1)) (pad3 ms)
            h m (s - 1) ms (digits_val_pad2 h (by omega)) (digits_val_pad2 m (by omega))
            hsp.1 (digits_val_pad3 ms (by omega)) hph.1 hpm.1 hsp.2.1 hpf.1 hsp.2.2 hpf.2]
        simp only [Option.some.injEq]
        omega

/-- Well-formedness of a start text for the finalizer claim: a
zero-padded two-digit `HH:MM:SS.mmm` text that is not all-zero (the
all-zero case is the decrementer's underflow, `convert_time_all_zero`). -/
def wf_start (t : Str) : Prop :=
  ∃ h m s ms, t = ts_text h m s ms '.' ∧ h ≤ 99 ∧ m ≤ 59 ∧ s ≤ 59 ∧ ms ≤ 999 ∧
    ¬(h = 0 ∧ m = 0 ∧ s = 0)

theorem valMs_ts (h m s ms : Nat) (hh : h ≤ 99) (hm : m ≤ 59) (hs : s ≤ 59) (hms : ms ≤ 999) :
    valMs (ts_text h m s ms '.') = some (((h * 60 + m) * 60 + s) * 1000 + ms) := by
  have e : ts_text h m s ms '.' = join_sep ':' [pad2 h, pad2 m, pad2 s] ++ '.' :: pad3 ms := by
    simp [ts_text, join_sep]
  rw [e, valMs_mk (pad2 h) (pad2 m) (pad2 s) (pad3 ms) h m s ms
      (digits_val_pad2 h (by omega)) (digits_val_pad2 m (by omega)) (digits_val_pad2 s (by omega))
      (digits_val_pad3 ms (by omega)) (pad2_chars h (by omega)).1 (pad2_chars m (by omega)).1
      (pad2_chars s (by omega)).1 (pad3_chars ms (by omega)).1 (pad2_chars s (by omega)).2
      (pad3_chars ms (by omega)).2]

theorem convert_time_wf (st : Str) (hwf : wf_start st) :
    ∃ e v sv, convert_time st = some e ∧ valMs e = some v ∧ valMs st = some sv ∧
      v + 1000 = sv := by
  obtain ⟨h, m, s, ms, rfl, hh, hm, hs, hms, hnz⟩ := hwf
  obtain ⟨out, hc, hv⟩ := convert_time_ts h m s ms hh hm hs hms hnz
  refine ⟨out, ((h * 60 + m) * 60 + s) * 1000 + ms - 1000,
    ((h * 60 + m) * 60 + s) * 1000 + ms, hc, hv, valMs_ts h m s ms hh hm hs hms, by omega⟩

theorem add_ends_wf : ∀ (l : List TimeDict),
    (∀ i (hi : i < l.length), 1 ≤ i → ∃ st, (l.get ⟨i, hi⟩).start = some st ∧ wf_start st) →
    ∃ mid, add_ends l = some mid ∧ mid.length = l.length ∧
      ∀ i, i + 1 < l.length → ∃ e v st sv,
        (mid.get? i).bind TimeDict.end_ = some e ∧ valMs e = some v ∧
        (l.get? (i + 1)).bind TimeDict.start = some st ∧ valMs st = some sv ∧
        v + 1000 = sv := by
  intro l
  induction l with
  | nil => intro _; exact ⟨[], rfl, rfl, fun i hi => absurd hi (by simp)⟩
  | cons d tail ih =>
    intro hwf
    cases tail with
    | nil =>
      refine ⟨[d], rfl, rfl, fun i hi => absurd hi (by simp at hi ⊢)⟩
    | cons d2 rest =>
      have h1 : ∃ st, d2.start = some st ∧ wf_start st := by
        have := hwf 1 (by simp) (by omega)
        simpa using this
      obtain ⟨st, hst, hwfst⟩ := h1
      obtain ⟨e, v, sv, hconv, hve, hvst, hsum⟩ := convert_time_wf st hwfst
      have hwf' : ∀ i (hi : i < (d2 :: rest).length), 1 ≤ i →
          ∃ st, ((d2 :: rest).get ⟨i, hi⟩).start = some st ∧ wf_start st := by
        intro i hi h1i
        have := hwf (i + 1) (by simpa using Nat.succ_lt_succ hi) (by omega)
        simpa using this
      obtain ⟨mid', hmid', hlen', hrel'⟩ := ih hwf'
      refine ⟨{ d with end_ := some e } :: mid', ?_, by simp [hlen'], ?_⟩
      · simp [add_ends, hst, hconv, hmid']
      · intro i hi
        cases i with
        | zero => exact ⟨e, v, st, sv, rfl, hve, hst, hvst, hsum⟩
        | succ j =>
          have hj : j + 1 < (d2 :: rest).length := by
            simp only [List.length_cons] at hi ⊢
            omega
          exact hrel' j hj

/-- C7: finalization.  When every boundary after the first carries a
well-formed non-zero start, the end-marker loop of `parse_timecodes`
succeeds; every non-last entry's `end` denotes exactly one second
(1000 ms) less than the next entry's start — computed with carry/borrow
across seconds, minutes and hours by `convert_time`; and the last
entry's `end`, set by `apply_chapters`, is the total recording duration
rendered by `format_timestamp_from_float` with the comma replaced by a
dot. -/
theorem finalizer_postcondition (l : List TimeDict) (us : Nat) (hne : l ≠ [])
    (hwf : ∀ i (hi : i < l.length), 1 ≤ i → ∃ st, (l.get ⟨i, hi⟩).start = some st ∧ wf_start st) :
    ∃ mid out, add_ends l = some mid ∧ apply_chapters_end mid us = some out ∧
      out.length = l.length ∧
      (∀ i, i + 1 < l.length → ∃ e v st sv,
        (out.get? i).bind TimeDict.end_ = some e ∧ valMs e = some v ∧
        (l.get? (i + 1)).bind TimeDict.start = some st ∧ valMs st = some sv ∧
        v + 1000 = sv) ∧
      (out.getLast?).bind TimeDict.end_ =
        some (py_replace ',' '.' (format_timestamp_from_float us)) := by
  obtain ⟨mid, hmid, hlen, hrel⟩ := add_ends_wf l hwf
  have hmne : mid ≠ [] := by
    intro h0
    rw [h0] at hlen
    exact hne (List.length_eq_zero.mp hlen.symm)
  cases hg : mid.getLast? with
  | none => exact absurd (List.getLast?_eq_none_iff.mp hg) hmne
  | some lastd =>
    have hpos : 1 ≤ mid.length := by
      cases mid with
      | nil => exact absurd rfl hmne
      | cons a t => simp
    refine ⟨mid, mid.dropLast ++
      [{ lastd with end_ := some (py_replace ',' '.' (format_timestamp_from_float us)) }],
      hmid, ?_, ?_, ?_, ?_⟩
    · simp [apply_chapters_end, hg]
    · simp only [List.length_append, List.length_dropLast, List.length_cons, List.length_nil]
      omega
    · intro i hi
      have hi' : i < mid.dropLast.length := by
        rw [List.length_dropLast]
        omega
      have hout : (mid.dropLast ++
          [{ lastd with end_ := some (py_replace ',' '.' (format_timestamp_from_float us)) }]).get? i =
          mid.get? i := by
        rw [List.get?_append hi', List.dropLast_eq_take, List.get?_take]
        rw [List.length_dropLast] at hi'
        omega
      rw [hout]
      exact hrel i hi
    · rw [List.getLast?_concat]
      rfl

/-- The single-boundary list of the §8 finalizer example. -/
def single_example : List TimeDict := [⟨some "00:00:00".data, some "Chapter 01".data, none⟩]

theorem finalizer_postcondition_witness :
    single_example ≠ [] ∧
    (∃ mid out, add_ends single_example = some mid ∧
      apply_chapters_end mid 3723500000 = some out ∧
      out.length = single_example.length ∧
      (∀ i, i + 1 < single_example.length → ∃ e v st sv,
        (out.get? i).bind TimeDict.end_ = some e ∧ valMs e = some v ∧
        (single_example.get? (i + 1)).bind TimeDict.start = some st ∧ valMs st = some sv ∧
        v + 1000 = sv) ∧
      (out.getLast?).bind TimeDict.end_ =
        some (py_replace ',' '.' (format_timestamp_from_float 3723500000))) ∧
    py_replace ',' '.' (format_timestamp_from_float 3723500000) = "01:02:03.500".data :=
  ⟨by decide,
   finalizer_postcondition single_example 3723500000 (by decide)
     (fun i hi h1i => absurd hi (by simp [single_example]; omega)),
   by rfl⟩

/-- The header line body (`write_cue_file` line 797), without its
trailing newline. -/
def file_line (stem : Str) : Str := "FILE \"".data ++ stem ++ ".mp3\" MP3".data

/-- `f"TRACK {i} AUDIO"` (line 800). -/
def track_line (i : Nat) : Str := "TRACK ".data ++ nat_str i ++ " AUDIO".data

/-- The TITLE line body (line 801): two spaces, `TITLE`, a tab, and the
label in double quotes. -/
def title_line (lbl : Str) : Str := "  TITLE\t\"".data ++ (lbl ++ ['"'])

/-- The START line body (line 802): two spaces, `START`, one tab, the
start text. -/
def start_line (st : Str) : Str := "  START\t".data ++ st

/-- The END line body (line 805): two spaces, `END`, two tabs, the end
text. -/
def end_line (e : Str) : Str := "  END\t\t".data ++ e

/-- The newline-stripped bodies of the lines `write_cue_file` emits for
tracks `i..` (1-based) of `n` total (lines 798-805); every physically
written line is one of these followed by `'\n'`.  The END line is
emitted for every track except the last (`i != len(timecodes)`).
`none` models the `KeyError` of a missing dictionary field, which the
`except OSError` clause would not catch. -/
def track_blocks (n : Nat) : Nat → List TimeDict → Option (List Str)
  | _, [] => some []
  | i, t :: rest => do
    let lbl ← t.chapter_type
    let st ← t.start
    let blk ← if i ≠ n then do
        let e ← t.end_
        pure [track_line i, title_line lbl, start_line st, end_line e]
      else pure [track_line i, title_line lbl, start_line st]
    let restL ← track_blocks n (i + 1) rest
    pure (blk ++ restL)

/-- The filesystem as the serializer sees it: the raw line list stored
at `cue_path` (`none` = the file does not exist). -/
structure FS where
  cue : Option (List Str)
deriving DecidableEq, Repr

/-- `write_cue_file` (lines 783-813) against the abstract filesystem.
`open(cue_path, 'x')` on an existing path raises `FileExistsError` — an
`OSError` — so the handler reports the error, finds that `cue_path`
exists, and `unlink`s it: the pre-existing file is deleted, and `False`
is returned.  On a fresh path the header plus all track blocks are
written and `True` returned; `none` models the uncaught `KeyError` of a
missing field. -/
def write_cue_file (timecodes : List TimeDict) (stem : Str) (fs : FS) : Option (Bool × FS) :=
  match fs.cue with
  | some _ => some (false, ⟨none⟩)
  | none =>
    match track_blocks timecodes.length 1 timecodes with
    | none => none
    | some bodies =>
      some (true, ⟨some ((file_line stem :: bodies).map (fun l => l ++ ['\n']))⟩)

/-- Python `l.strip('\n')`: remove newlines from both ends. -/
def py_strip_nl (s : Str) : Str :=
  ((s.dropWhile (fun c => c = '\n')).reverse.dropWhile (fun c => c = '\n')).reverse

/-- Result of `read_cue_file`: `crash` is an uncaught exception (the
`TypeError` from subscripting a failed `re.search`), `failed` is a
`return None`, `ok` a parsed list. -/
inductive ReadResult where
  | crash
  | failed
  | ok (timecodes : List TimeDict)
deriving DecidableEq, Repr

/-- One attempt of `re.search(r'TITLE\t"(.*)"', line)` at the current
position: after the literal `TITLE\t"`, the greedy `(.*)` captures up
to the last `"` on the line (`.` does not cross a newline). -/
def title_at (s : Str) : Option Str :=
  if pre_of "TITLE\t\"".data s then
    let w := (s.drop 7).takeWhile (fun c => ¬(c = '\n'))
    match w.reverse.dropWhile (fun c => ¬(c = '"')) with
    | '"' :: pre => some pre.reverse
    | _ => none
  else none

/-- Leftmost search for the TITLE pattern. -/
def search_title : Str → Option Str
  | [] => none
  | c :: rest =>
    match title_at (c :: rest) with
    | some g => some g
    | none => search_title rest

/-- One attempt of `re.search(r'START\t(.+)', line)`: after the literal
`START` and one tab, the greedy `(.+)` captures the nonempty rest of
the line. -/
def start_at (s : Str) : Option Str :=
  if pre_of "START\t".data s then
    let cap := (s.drop 6).takeWhile (fun c => ¬(c = '\n'))
    if cap.isEmpty then none else some cap
  else none

/-- Leftmost search for the START pattern. -/
def search_start : Str → Option Str
  | [] => none
  | c :: rest =>
    match start_at (c :: rest) with
    | some g => some g
    | none => search_start rest

/-- One attempt of `re.search(r'END\t+(.+)', line)`: after the literal
`END`, one or more tabs greedily, then a nonempty capture up to the end
of the line; when only the line end follows the tabs the engine
backtracks, and the last tab itself becomes the capture (which needs at
least two tabs). -/
def end_at (s : Str) : Option Str :=
  if pre_of "END".data s then
    let r := s.drop 3
    let tabs := r.takeWhile (fun c => c = '\t')
    if tabs.isEmpty then none
    else
      let cap := (r.drop tabs.length).takeWhile (fun c => ¬(c = '\n'))
      if ¬cap.isEmpty then some cap
      else if 2 ≤ tabs.length then some ['\t'] else none
  else none

/-- Leftmost search for the END pattern. -/
def search_end : Str → Option Str
  | [] => none
  | c :: rest =>
    match end_at (c :: rest) with
    | some g => some g
    | none => search_end rest

/-- The try-block of `read_cue_file`'s loop (lines 833-842): three
substring-guarded field extractions in order.  A guard that fires while
its regex finds no match is Python `None[1]`, a `TypeError`; the
`except (ValueError, IndexError)` clause does not catch it, so the run
crashes — modelled as `none` here. -/
def read_fields (total i : Nat) (line : Str) (d : TimeDict) : Option TimeDict := do
  let d1 ← if contains_sub "TITLE".data line then
      (search_title line).map (fun g => { d with chapter_type := some g })
    else some d
  let d2 ← if contains_sub "START".data line then
      (search_start line).map (fun g => { d1 with start := some g })
    else some d1
  if contains_sub "END".data line ∧ i ≠ total - 1 then
    (search_end line).map (fun g => { d2 with end_ := some g })
  else some d2

/-- Loop state of the reader: the records appended to `timecodes`, the
accumulating dictionary, and whether the accumulator is the same Python
object as the list's last element (the `elif line == content[-1]`
branch appends without resetting, so later field writes would mutate
the appended record too). -/
structure ReadState where
  closed : List TimeDict
  cur : TimeDict
  aliased : Bool

/-- Apply a field update to the state, mirroring Python mutation: when
the accumulator aliases the last appended record, that record changes
with it. -/
def upd_cur (st : ReadState) (d : TimeDict) : ReadState :=
  if st.aliased then { st with closed := st.closed.dropLast ++ [d], cur := d }
  else { st with cur := d }

/-- The `for i, line in enumerate(content[1:])` loop of `read_cue_file`
(lines 832-848), followed by the final emptiness check (lines 850-857).
`content[i+1]` in the first flush test is the current line itself, and
`content[-1]` is passed in as `lastLine`. -/
def read_loop (total : Nat) (lastLine : Str) : Nat → List Str → ReadState → ReadResult
  | _, [], st => if st.closed.isEmpty then .failed else .ok st.closed
  | i, line :: rest, st =>
    match read_fields total i line st.cur with
    | none => .crash
    | some d' =>
      let st' := upd_cur st d'
      if contains_sub "TRACK".data line ∧ ¬(d' = TimeDict.empty) then
        read_loop total lastLine (i + 1) rest
          { closed := st'.closed ++ [d'], cur := TimeDict.empty, aliased := false }
      else if line = lastLine ∧ ¬(d' = TimeDict.empty) then
        read_loop total lastLine (i + 1) rest
          { closed := st'.closed ++ [d'], cur := d', aliased := true }
      else
        read_loop total lastLine (i + 1) rest st'

/-- `read_cue_file` (lines 815-857) on the raw line list of the file:
`readlines` yields the newline-terminated lines, each is stripped of
surrounding newlines, and the loop walks `content[1:]`. -/
def read_cue_file (raw : List Str) : ReadResult :=
  let content := raw.map py_strip_nl
  read_loop content.length (content.getLastD []) 0 (content.drop 1)
    ⟨[], TimeDict.empty, false⟩

/-- C5: invoking the serializer on an already-existing sidecar path
does return the failure flag — but the except-handler then `unlink`s
the pre-existing file, so afterwards the file is gone rather than left
unchanged as the claim requires. -/
theorem write_cue_file_deletes_existing :
    write_cue_file out_example "book".data ⟨some ["existing line\n".data]⟩ =
      some (false, ⟨none⟩) ∧
    some ["existing line\n".data] ≠ (none : Option (List Str)) := by
  exact ⟨rfl, by decide⟩

/-- C9: a cue line containing `TITLE` that does not match the TITLE
regex makes `re.search` return `None`; subscripting it raises
`TypeError`, which `except (ValueError, IndexError)` does not catch —
the deserializer crashes with an unhandled exception instead of
reporting the error and returning `None`. -/
theorem read_cue_file_crashes_on_bad_title :
    read_cue_file ["FILE \"book.mp3\" MP3\n".data, "TRACK 1 AUDIO\n".data,
      "  TITLE broken\n".data] = ReadResult.crash := by rfl

theorem pre_of_iff : ∀ (pat s : Str), pre_of pat s = true ↔ ∃ v, s = pat ++ v := by
  intro pat
  induction pat with
  | nil => intro s; simp [pre_of]
  | cons p ps ih =>
    intro s
    cases s with
    | nil => simp [pre_of]
    | cons c cs =>
      simp only [pre_of, Bool.and_eq_true, decide_eq_true_eq, ih cs]
      constructor
      · rintro ⟨rfl, v, rfl⟩
        exact ⟨v, rfl⟩
      · rintro ⟨v, he⟩
        injection he with h1 h2
        exact ⟨h1.symm, v, h2⟩

theorem contains_sub_iff : ∀ (pat s : Str),
    contains_sub pat s = true ↔ ∃ u v, s = u ++ (pat ++ v) := by
  intro pat s
  induction s with
  | nil =>
    simp only [contains_sub, pre_of_iff]
    constructor
    · rintro ⟨v, hv⟩
      exact ⟨[], v, hv⟩
    · rintro ⟨u, v, hv⟩
      rcases List.append_eq_nil.mp hv.symm with ⟨rfl, h2⟩
      exact ⟨v, h2.symm ▸ rfl⟩
  | cons c cs ih =>
    simp only [contains_sub, Bool.or_eq_true, pre_of_iff, ih]
    constructor
    · rintro (⟨v, hv⟩ | ⟨u, v, hv⟩)
      · exact ⟨[], v, hv⟩
      · exact ⟨c :: u, v, by simp [hv]⟩
    · rintro ⟨u, v, hv⟩
      cases u with
      | nil => exact Or.inl ⟨v, by simpa using hv⟩
      | cons u0 us =>
        injection hv with h1 h2
        exact Or.inr ⟨us, v, h2⟩

theorem mem_of_contains_sub (pat s : Str) (h : contains_sub pat s = true) :
    ∀ c ∈ pat, c ∈ s := by
  obtain ⟨u, v, rfl⟩ := (contains_sub_iff pat s).mp h
  intro c hc
  simp [hc]

/-- Decompose an occurrence across an append: it lies in the left part,
in the right part, or straddles the seam. -/
theorem contains_append_cases (pat a b : Str) (h : contains_sub pat (a ++ b) = true) :
    contains_sub pat a = true ∨ contains_sub pat b = true ∨
    ∃ p q, pat = p ++ q ∧ p ≠ [] ∧ q ≠ [] ∧ (∃ u, a = u ++ p) ∧ ∃ v, b = q ++ v := by
  obtain ⟨u, v, he⟩ := (contains_sub_iff pat (a ++ b)).mp h
  rcases List.append_eq_append_iff.mp he with ⟨w, hw1, hw2⟩ | ⟨w, hw1, hw2⟩
  · exact Or.inr (Or.inl ((contains_sub_iff pat b).mpr ⟨w, v, hw2⟩))
  · rcases List.append_eq_append_iff.mp hw2 with ⟨z, hz1, hz2⟩ | ⟨z, hz1, hz2⟩
    · exact Or.inl ((contains_sub_iff pat a).mpr ⟨u, z, by rw [hw1, hz1]⟩)
    · cases w with
      | nil =>
        have hpz : pat = z := by simpa using hz1
        refine Or.inr (Or.inl ((contains_sub_iff pat b).mpr ⟨[], v, ?_⟩))
        simp [hz2, hpz]
      | cons w0 ws =>
        cases z with
        | nil =>
          have hpw : pat = w0 :: ws := by simpa using hz1
          refine Or.inl ((contains_sub_iff pat a).mpr ⟨u, [], ?_⟩)
          simp [hw1, hpw]
        | cons z0 zs =>
          exact Or.inr (Or.inr ⟨w0 :: ws, z0 :: zs, hz1, by simp, by simp, ⟨u, hw1⟩, ⟨v, hz2⟩⟩)

theorem getLast_append_right (u p : Str) (hp : p ≠ []) (hup : u ++ p ≠ []) :
    (u ++ p).getLast hup = p.getLast hp := by
  rw [List.getLast_append]
  simp [List.isEmpty_iff, hp]

/-- Master no-occurrence lemma for a line of the form
`A ++ field ++ B`: if the pattern occurs in none of the three pieces,
does not contain `A`'s final character nor `B`'s first character, then
it does not occur in the line at all (no straddling occurrence can
exist). -/
theorem contains_affix_false (pat A f B : Str)
    (hA : contains_sub pat A = false) (hf : contains_sub pat f = false)
    (hB : contains_sub pat B = false)
    (hAlast : ∀ (h : A ≠ []), A.getLast h ∉ pat)
    (hBhead : ∀ (h : B ≠ []), B.head h ∉ pat) :
    contains_sub pat (A ++ (f ++ B)) = false := by
  by_contra hcon
  rw [Bool.not_eq_false] at hcon
  rcases contains_append_cases pat A (f ++ B) hcon with h1 | h1 | ⟨p, q, hpq, hp, hq, ⟨u, hu⟩, ⟨v, hv⟩⟩
  · rw [hA] at h1; cases h1
  · rcases contains_append_cases pat f B h1 with h2 | h2 | ⟨p, q, hpq, hp, hq, ⟨u, hu⟩, ⟨v, hv⟩⟩
    · rw [hf] at h2; cases h2
    · rw [hB] at h2; cases h2
    · cases q with
      | nil => exact absurd rfl hq
      | cons q0 qs =>
        subst hv
        refine hBhead (by simp) ?_
        show q0 ∈ pat
        rw [hpq]
        simp
  · subst hu
    refine hAlast (by simp [hp]) ?_
    have h2 : p.getLast hp ∈ pat := by
      rw [hpq]
      exact List.mem_append.mpr (Or.inl (List.getLast_mem hp))
    exact (getLast_append_right u p hp (by simp [hp])).symm ▸ h2

/-- A field value that cannot disturb the line-oriented cue format: no
newline, and none of the keyword substrings the reader's guards test
for.  Detector labels (title-cased markers plus digits), extracted
starts (digits, colons, dots) and `convert_time` outputs all satisfy
this. -/
def clean (s : Str) : Prop :=
  ('\n' ∈ s → False) ∧ contains_sub "TRACK".data s = false ∧
  contains_sub "TITLE".data s = false ∧ contains_sub "START".data s = false ∧
  contains_sub "END".data s = false

theorem nat_str_aux_digits : ∀ fuel n c, c ∈ nat_str_aux fuel n → c.isDigit = true := by
  intro fuel
  induction fuel with
  | zero => intro n c hc; cases hc
  | succ f ih =>
    intro n c hc
    simp only [nat_str_aux] at hc
    by_cases h : n < 10
    · rw [if_pos h] at hc
      have : c = Nat.digitChar n := by simpa using hc
      subst this
      exact digitChar_isDigit n h
    · rw [if_neg h] at hc
      rcases List.mem_append.mp hc with h1 | h1
      · exact ih _ _ h1
      · have : c = Nat.digitChar (n % 10) := by simpa using h1
        subst this
        exact digitChar_isDigit _ (Nat.mod_lt _ (by omega))

theorem nat_str_digits (n : Nat) : ∀ c ∈ nat_str n, c.isDigit = true :=
  fun c hc => nat_str_aux_digits (n + 1) n c hc

theorem contains_nondigit_nat_str (pat : Str) (i : Nat) (c : Char) (hc : c ∈ pat)
    (hnd : c.isDigit = false) : contains_sub pat (nat_str i) = false := by
  by_contra hx
  rw [Bool.not_eq_false] at hx
  have := nat_str_digits i c (mem_of_contains_sub pat _ hx c hc)
  rw [this] at hnd
  cases hnd

theorem title_line_no (pat lbl : Str) (hf : contains_sub pat lbl = false)
    (hA : contains_sub pat "  TITLE\t\"".data = false)
    (hB : contains_sub pat (['"'] : Str) = false)
    (hq : '"' ∉ pat) :
    contains_sub pat (title_line lbl) = false := by
  unfold title_line
  refine contains_affix_false pat _ _ _ hA hf hB ?_ ?_
  · intro h hm
    have e : List.getLast "  TITLE\t\"".data h = '"' := rfl
    rw [e] at hm
    exact hq hm
  · intro h hm
    have e : List.head (['"'] : Str) h = '"' := rfl
    rw [e] at hm
    exact hq hm

theorem start_line_no (pat st : Str) (hf : contains_sub pat st = false)
    (hA : contains_sub pat "  START\t".data = false)
    (hB : contains_sub pat ([] : Str) = false)
    (ht : '\t' ∉ pat) :
    contains_sub pat (start_line st) = false := by
  have e : start_line st = "  START\t".data ++ (st ++ ([] : Str)) := by simp [start_line]
  rw [e]
  refine contains_affix_false pat _ _ _ hA hf hB ?_ ?_
  · intro h hm
    have e2 : List.getLast "  START\t".data h = '\t' := rfl
    rw [e2] at hm
    exact ht hm
  · intro h _
    exact absurd rfl h

theorem end_line_no (pat e : Str) (hf : contains_sub pat e = false)
    (hA : contains_sub pat "  END\t\t".data = false)
    (hB : contains_sub pat ([] : Str) = false)
    (ht : '\t' ∉ pat) :
    contains_sub pat (end_line e) = false := by
  have he : end_line e = "  END\t\t".data ++ (e ++ ([] : Str)) := by simp [end_line]
  rw [he]
  refine contains_affix_false pat _ _ _ hA hf hB ?_ ?_
  · intro h hm
    have e2 : List.getLast "  END\t\t".data h = '\t' := rfl
    rw [e2] at hm
    exact ht hm
  · intro h _
    exact absurd rfl h

theorem track_line_no (pat : Str) (i : Nat) (c : Char) (hc : c ∈ pat)
    (hnd : c.isDigit = false)
    (hA : contains_sub pat "TRACK ".data = false)
    (hB : contains_sub pat " AUDIO".data = false)
    (hsp : ' ' ∉ pat) :
    contains_sub pat (track_line i) = false := by
  have e : track_line i = "TRACK ".data ++ (nat_str i ++ " AUDIO".data) := by simp [track_line]
  rw [e]
  refine contains_affix_false pat _ _ _ hA (contains_nondigit_nat_str pat i c hc hnd) hB ?_ ?_
  · intro h hm
    have e2 : List.getLast "TRACK ".data h = ' ' := rfl
    rw [e2] at hm
    exact hsp hm
  · intro h hm
    have e2 : List.head " AUDIO".data h = ' ' := rfl
    rw [e2] at hm
    exact hsp hm

theorem contains_title_line (lbl : Str) : contains_sub "TITLE".data (title_line lbl) = true :=
  (contains_sub_iff _ _).mpr ⟨"  ".data, "\t\"".data ++ (lbl ++ ['"']), by simp [title_line]⟩

theorem contains_track_line (i : Nat) : contains_sub "TRACK".data (track_line i) = true :=
  (contains_sub_iff _ _).mpr ⟨[], " ".data ++ (nat_str i ++ " AUDIO".data), by simp [track_line]⟩

theorem contains_start_line (st : Str) : contains_sub "START".data (start_line st) = true :=
  (contains_sub_iff _ _).mpr ⟨"  ".data, "\t".data ++ st, by simp [start_line]⟩

theorem contains_end_line (e : Str) : contains_sub "END".data (end_line e) = true :=
  (contains_sub_iff _ _).mpr ⟨"  ".data, "\t\t".data ++ e, by simp [end_line]⟩

theorem takeWhile_all (p : Char → Bool) : ∀ (xs : Str), (∀ c ∈ xs, p c = true) →
    xs.takeWhile p = xs := by
  intro xs
  induction xs with
  | nil => intro _; rfl
  | cons c rest ih =>
    intro h
    simp [List.takeWhile_cons, h c (by simp), ih (fun d hd => h d (by simp [hd]))]

theorem dropWhile_nohit (p : Char → Bool) : ∀ (xs : Str), (∀ c ∈ xs, p c = false) →
    xs.dropWhile p = xs := by
  intro xs
  cases xs with
  | nil => intro _; rfl
  | cons c rest => intro h; simp [List.dropWhile_cons, h c (by simp)]

theorem strip_writer_line (l : Str) (h : '\n' ∉ l) : py_strip_nl (l ++ ['\n']) = l := by
  cases l with
  | nil => rfl
  | cons c rest =>
    have hc : ¬(c = '\n') := fun he => h (by simp [he])
    have hrest : '\n' ∉ rest := fun he => h (by simp [he])
    unfold py_strip_nl
    have h1 : (c :: rest ++ ['\n']).dropWhile (fun c => c = '\n') = c :: rest ++ ['\n'] := by
      simp [List.dropWhile_cons, hc]
    rw [h1]
    have h2 : (c :: rest ++ ['\n']).reverse = '\n' :: (c :: rest).reverse := by simp
    rw [h2]
    have h3 : ('\n' :: (c :: rest).reverse).dropWhile (fun c => c = '\n') =
        (c :: rest).reverse.dropWhile (fun c => c = '\n') := by
      simp [List.dropWhile_cons]
    rw [h3]
    have h4 : (c :: rest).reverse.dropWhile (fun c => c = '\n') = (c :: rest).reverse := by
      refine dropWhile_nohit _ _ ?_
      intro d hd
      have hdm : d ∈ c :: rest := List.mem_reverse.mp hd
      rcases List.mem_cons.mp hdm with h5 | h5
      · subst h5; simp [hc]
      · simp only [decide_eq_false_iff_not]
        intro he; subst he; exact hrest h5
    rw [h4, List.reverse_reverse]

theorem pre_of_cons_false (a : Char) (u : Str) (c : Char) (s : Str) (h : ¬(a = c)) :
    pre_of (a :: u) (c :: s) = false := by
  simp [pre_of, h]

theorem title_at_cons_ne (c : Char) (s : Str) (h : ¬(c = 'T')) : title_at (c :: s) = none := by
  have hp : pre_of "TITLE\t\"".data (c :: s) = false := by
    rw [show ("TITLE\t\"".data : Str) = 'T' :: "ITLE\t\"".data from rfl]
    exact pre_of_cons_false _ _ _ _ (fun hh => h hh.symm)
  simp [title_at, hp]

theorem start_at_cons_ne (c : Char) (s : Str) (h : ¬(c = 'S')) : start_at (c :: s) = none := by
  have hp : pre_of "START\t".data (c :: s) = false := by
    rw [show ("START\t".data : Str) = 'S' :: "TART\t".data from rfl]
    exact pre_of_cons_false _ _ _ _ (fun hh => h hh.symm)
  simp [start_at, hp]

theorem end_at_cons_ne (c : Char) (s : Str) (h : ¬(c = 'E')) : end_at (c :: s) = none := by
  have hp : pre_of "END".data (c :: s) = false := by
    rw [show ("END".data : Str) = 'E' :: "ND".data from rfl]
    exact pre_of_cons_false _ _ _ _ (fun hh => h hh.symm)
  simp [end_at, hp]

theorem search_title_cons (c : Char) (s : Str) (h : title_at (c :: s) = none) :
    search_title (c :: s) = search_title s := by
  simp [search_title, h]

theorem search_start_cons (c : Char) (s : Str) (h : start_at (c :: s) = none) :
    search_start (c :: s) = search_start s := by
  simp [search_start, h]

theorem search_end_cons (c : Char) (s : Str) (h : end_at (c :: s) = none) :
    search_end (c :: s) = search_end s := by
  simp [search_end, h]

theorem title_at_match (lbl : Str) (hnl : '\n' ∉ lbl) :
    title_at ("TITLE\t\"".data ++ (lbl ++ ['"'])) = some lbl := by
  have htake : (lbl ++ ['"']).takeWhile (fun c => ¬(c = '\n')) = lbl ++ ['"'] := by
    refine takeWhile_all _ _ ?_
    intro c hc
    simp only [Bool.not_eq_true', decide_eq_false_iff_not, decide_eq_true_eq]
    rcases List.mem_append.mp hc with h | h
    · intro he; subst he; exact hnl h
    · simp at h; subst h; decide
  have hrev : (lbl ++ ['"']).reverse = '"' :: lbl.reverse := by simp
  have hdw : ('"' :: lbl.reverse).dropWhile (fun c => ¬(c = '"')) = '"' :: lbl.reverse := by
    simp [List.dropWhile_cons]
  show (match ((lbl ++ ['"']).takeWhile (fun c => ¬(c = '\n'))).reverse.dropWhile
      (fun c => ¬(c = '"')) with
    | '"' :: pre => some pre.reverse
    | _ => none) = some lbl
  rw [htake, hrev, hdw]
  show some lbl.reverse.reverse = some lbl
  rw [List.reverse_reverse]

theorem start_at_match (st : Str) (hnl : '\n' ∉ st) (hne : st ≠ []) :
    start_at ("START\t".data ++ st) = some st := by
  have htake : st.takeWhile (fun c => ¬(c = '\n')) = st := by
    refine takeWhile_all _ _ ?_
    intro c hc
    simp only [Bool.not_eq_true', decide_eq_false_iff_not, decide_eq_true_eq]
    intro he; subst he; exact hnl hc
  show (if (st.takeWhile (fun c => ¬(c = '\n'))).isEmpty then none
    else some (st.takeWhile (fun c => ¬(c = '\n')))) = some st
  rw [htake]
  rw [if_neg]
  simp only [List.isEmpty_iff]
  exact hne

theorem end_at_match (e : Str) (hnl : '\n' ∉ e) (hne : e ≠ []) (hht : e.head? ≠ some '\t') :
    end_at ("END\t\t".data ++ e) = some e := by
  have htabs : ('\t' :: '\t' :: e).takeWhile (fun c => c = '\t') = ['\t', '\t'] := by
    have h1 : e.takeWhile (fun c => c = '\t') = [] := by
      cases e with
      | nil => rfl
      | cons c rest =>
        have hc : ¬(c = '\t') := fun he => hht (by simp [List.head?, he])
        simp [List.takeWhile_cons, hc]
    simp [List.takeWhile_cons, h1]
  have htake : e.takeWhile (fun c => ¬(c = '\n')) = e := by
    refine takeWhile_all _ _ ?_
    intro c hc
    simp only [Bool.not_eq_true', decide_eq_false_iff_not, decide_eq_true_eq]
    intro he; subst he; exact hnl hc
  show (if (('\t' :: '\t' :: e).takeWhile (fun c => c = '\t')).isEmpty then none
    else
      if ¬((('\t' :: '\t' :: e).drop
            (('\t' :: '\t' :: e).takeWhile (fun c => c = '\t')).length).takeWhile
          (fun c => ¬(c = '\n'))).isEmpty then
        some ((('\t' :: '\t' :: e).drop
            (('\t' :: '\t' :: e).takeWhile (fun c => c = '\t')).length).takeWhile
          (fun c => ¬(c = '\n')))
      else if 2 ≤ (('\t' :: '\t' :: e).takeWhile (fun c => c = '\t')).length then some ['\t']
      else none) = some e
  rw [htabs]
  simp only [List.length_cons, List.length_nil, List.isEmpty_cons, List.drop_succ_cons,
    List.drop_zero]
  rw [htake]
  rw [if_neg (by simp)]
  rw [if_pos]
  simp only [List.isEmpty_iff]
  exact hne

theorem search_title_line (lbl : Str) (hnl : '\n' ∉ lbl) :
    search_title (title_line lbl) = some lbl := by
  have h0 : title_line lbl = ' ' :: (' ' :: ("TITLE\t\"".data ++ (lbl ++ ['"']))) := rfl
  rw [h0, search_title_cons _ _ (title_at_cons_ne _ _ (by decide)),
      search_title_cons _ _ (title_at_cons_ne _ _ (by decide))]
  have hm : title_at ('T' :: 'I' :: 'T' :: 'L' :: 'E' :: '\t' :: '"' :: (lbl ++ ['"'])) =
      some lbl := title_at_match lbl hnl
  simp [search_title, hm]

theorem search_start_line (st : Str) (hnl : '\n' ∉ st) (hne : st ≠ []) :
    search_start (start_line st) = some st := by
  have h0 : start_line st = ' ' :: (' ' :: ("START\t".data ++ st)) := rfl
  rw [h0, search_start_cons _ _ (start_at_cons_ne _ _ (by decide)),
      search_start_cons _ _ (start_at_cons_ne _ _ (by decide))]
  have hm : start_at ('S' :: 'T' :: 'A' :: 'R' :: 'T' :: '\t' :: st) = some st :=
    start_at_match st hnl hne
  simp [search_start, hm]

theorem search_end_line (e : Str) (hnl : '\n' ∉ e) (hne : e ≠ []) (hht : e.head? ≠ some '\t') :
    search_end (end_line e) = some e := by
  have h0 : end_line e = ' ' :: (' ' :: ("END\t\t".data ++ e)) := rfl
  rw [h0, search_end_cons _ _ (end_at_cons_ne _ _ (by decide)),
      search_end_cons _ _ (end_at_cons_ne _ _ (by decide))]
  have hm : end_at ('E' :: 'N' :: 'D' :: '\t' :: '\t' :: e) = some e :=
    end_at_match e hnl hne hht
  simp [search_end, hm]

theorem no_title_in_track (i : Nat) : contains_sub "TITLE".data (track_line i) = false :=
  track_line_no _ i 'T' (by decide) (by decide) (by decide) (by decide) (by decide)

theorem no_start_in_track (i : Nat) : contains_sub "START".data (track_line i) = false :=
  track_line_no _ i 'S' (by decide) (by decide) (by decide) (by decide) (by decide)

theorem no_end_in_track (i : Nat) : contains_sub "END".data (track_line i) = false :=
  track_line_no _ i 'E' (by decide) (by decide) (by decide) (by decide) (by decide)

theorem no_track_in_title (lbl : Str) (h : clean lbl) :
    contains_sub "TRACK".data (title_line lbl) = false :=
  title_line_no _ lbl h.2.1 (by decide) (by decide) (by decide)

theorem no_start_in_title (lbl : Str) (h : clean lbl) :
    contains_sub "START".data (title_line lbl) = false :=
  title_line_no _ lbl h.2.2.2.1 (by decide) (by decide) (by decide)

theorem no_end_in_title (lbl : Str) (h : clean lbl) :
    contains_sub "END".data (title_line lbl) = false :=
  title_line_no _ lbl h.2.2.2.2 (by decide) (by decide) (by decide)

theorem no_track_in_start (st : Str) (h : clean st) :
    contains_sub "TRACK".data (start_line st) = false :=
  start_line_no _ st h.2.1 (by decide) (by decide) (by decide)

theorem no_title_in_start (st : Str) (h : clean st) :
    contains_sub "TITLE".data (start_line st) = false :=
  start_line_no _ st h.2.2.1 (by decide) (by decide) (by decide)

theorem no_end_in_start (st : Str) (h : clean st) :
    contains_sub "END".data (start_line st) = false :=
  start_line_no _ st h.2.2.2.2 (by decide) (by decide) (by decide)

theorem no_track_in_end (e : Str) (h : clean e) :
    contains_sub "TRACK".data (end_line e) = false :=
  end_line_no _ e h.2.1 (by decide) (by decide) (by decide)

theorem no_title_in_end (e : Str) (h : clean e) :
    contains_sub "TITLE".data (end_line e) = false :=
  end_line_no _ e h.2.2.1 (by decide) (by decide) (by decide)

theorem no_start_in_end (e : Str) (h : clean e) :
    contains_sub "START".data (end_line e) = false :=
  end_line_no _ e h.2.2.2.1 (by decide) (by decide) (by decide)

theorem track_ne_start (i : Nat) (s : Str) : track_line i ≠ start_line s := by
  intro h
  have h1 : track_line i = 'T' :: ("RACK ".data ++ (nat_str i ++ " AUDIO".data)) := rfl
  have h2 : start_line s = ' ' :: (" START\t".data ++ s) := rfl
  rw [h1, h2] at h
  injection h with hc _
  exact absurd hc (by decide)

theorem title_ne_start (lbl s : Str) : title_line lbl ≠ start_line s := by
  intro h
  have h1 : title_line lbl = ' ' :: ' ' :: 'T' :: ("ITLE\t\"".data ++ (lbl ++ ['"'])) := rfl
  have h2 : start_line s = ' ' :: ' ' :: 'S' :: ("TART\t".data ++ s) := rfl
  rw [h1, h2] at h
  injection h with _ h
  injection h with _ h
  injection h with hc _
  exact absurd hc (by decide)

theorem end_ne_start (e s : Str) : end_line e ≠ start_line s := by
  intro h
  have h1 : end_line e = ' ' :: ' ' :: 'E' :: ("ND\t\t".data ++ e) := rfl
  have h2 : start_line s = ' ' :: ' ' :: 'S' :: ("TART\t".data ++ s) := rfl
  rw [h1, h2] at h
  injection h with _ h
  injection h with _ h
  injection h with hc _
  exact absurd hc (by decide)

theorem start_line_inj (a b : Str) (h : start_line a = start_line b) : a = b := by
  simpa [start_line] using h

theorem read_fields_track (total idx i : Nat) (d : TimeDict) :
    read_fields total idx (track_line i) d = some d := by
  have h1 : contains_sub (['T', 'I', 'T', 'L', 'E'] : Str) (track_line i) = false :=
    no_title_in_track i
  have h2 : contains_sub (['S', 'T', 'A', 'R', 'T'] : Str) (track_line i) = false :=
    no_start_in_track i
  have h3 : contains_sub (['E', 'N', 'D'] : Str) (track_line i) = false :=
    no_end_in_track i
  simp [read_fields, h1, h2, h3]

theorem read_fields_title (total idx : Nat) (lbl : Str) (d : TimeDict) (h : clean lbl) :
    read_fields total idx (title_line lbl) d =
      some { d with chapter_type := some lbl } := by
  have h1 : contains_sub (['T', 'I', 'T', 'L', 'E'] : Str) (title_line lbl) = true :=
    contains_title_line lbl
  have h2 : contains_sub (['S', 'T', 'A', 'R', 'T'] : Str) (title_line lbl) = false :=
    no_start_in_title lbl h
  have h3 : contains_sub (['E', 'N', 'D'] : Str) (title_line lbl) = false :=
    no_end_in_title lbl h
  simp [read_fields, h1, h2, h3, search_title_line lbl h.1]

theorem read_fields_start (total idx : Nat) (st : Str) (d : TimeDict) (h : clean st)
    (hne : st ≠ []) :
    read_fields total idx (start_line st) d = some { d with start := some st } := by
  have h1 : contains_sub (['T', 'I', 'T', 'L', 'E'] : Str) (start_line st) = false :=
    no_title_in_start st h
  have h2 : contains_sub (['S', 'T', 'A', 'R', 'T'] : Str) (start_line st) = true :=
    contains_start_line st
  have h3 : contains_sub (['E', 'N', 'D'] : Str) (start_line st) = false :=
    no_end_in_start st h
  simp [read_fields, h1, h2, h3, search_start_line st h.1 hne]

theorem read_fields_end (total idx : Nat) (e : Str) (d : TimeDict) (h : clean e)
    (hne : e ≠ []) (hht : e.head? ≠ some '\t') (hidx : idx ≠ total - 1) :
    read_fields total idx (end_line e) d = some { d with end_ := some e } := by
  have h1 : contains_sub (['T', 'I', 'T', 'L', 'E'] : Str) (end_line e) = false :=
    no_title_in_end e h
  have h2 : contains_sub (['S', 'T', 'A', 'R', 'T'] : Str) (end_line e) = false :=
    no_start_in_end e h
  have h3 : contains_sub (['E', 'N', 'D'] : Str) (end_line e) = true :=
    contains_end_line e
  simp [read_fields, h1, h2, h3, search_end_line e h.1 hne hht, hidx]

theorem read_loop_track_step (total idx i : Nat) (lastSt : Str) (rest : List Str)
    (closed : List TimeDict) (cur : TimeDict) :
    read_loop total (start_line lastSt) idx (track_line i :: rest) ⟨closed, cur, false⟩ =
      read_loop total (start_line lastSt) (idx + 1) rest
        ⟨closed ++ (if cur = TimeDict.empty then [] else [cur]), TimeDict.empty, false⟩ := by
  have htr : contains_sub (['T', 'R', 'A', 'C', 'K'] : Str) (track_line i) = true :=
    contains_track_line i
  by_cases hcur : cur = TimeDict.empty
  · subst hcur
    simp [read_loop, read_fields_track, upd_cur, track_ne_start i lastSt]
  · simp [read_loop, read_fields_track, htr, hcur, upd_cur]

theorem read_loop_title_step (total idx : Nat) (lbl lastSt : Str) (rest : List Str)
    (closed : List TimeDict) (cur : TimeDict) (h : clean lbl) :
    read_loop total (start_line lastSt) idx (title_line lbl :: rest) ⟨closed, cur, false⟩ =
      read_loop total (start_line lastSt) (idx + 1) rest
        ⟨closed, { cur with chapter_type := some lbl }, false⟩ := by
  have htr : contains_sub (['T', 'R', 'A', 'C', 'K'] : Str) (title_line lbl) = false :=
    no_track_in_title lbl h
  simp [read_loop, read_fields_title total idx lbl cur h, htr, upd_cur,
    title_ne_start lbl lastSt]

theorem read_loop_start_mid_step (total idx : Nat) (st lastSt : Str) (rest : List Str)
    (closed : List TimeDict) (cur : TimeDict) (h : clean st) (hne : st ≠ [])
    (hdiff : st ≠ lastSt) :
    read_loop total (start_line lastSt) idx (start_line st :: rest) ⟨closed, cur, false⟩ =
      read_loop total (start_line lastSt) (idx + 1) rest
        ⟨closed, { cur with start := some st }, false⟩ := by
  have htr : contains_sub (['T', 'R', 'A', 'C', 'K'] : Str) (start_line st) = false :=
    no_track_in_start st h
  have hlines : ¬(start_line st = start_line lastSt) := fun he => hdiff (start_line_inj _ _ he)
  simp [read_loop, read_fields_start total idx st cur h hne, htr, upd_cur, hlines]

theorem read_loop_start_last (total idx : Nat) (lastSt : Str) (closed : List TimeDict)
    (cur : TimeDict) (h : clean lastSt) (hne : lastSt ≠ []) :
    read_loop total (start_line lastSt) idx [start_line lastSt] ⟨closed, cur, false⟩ =
      ReadResult.ok (closed ++ [{ cur with start := some lastSt }]) := by
  have htr : contains_sub (['T', 'R', 'A', 'C', 'K'] : Str) (start_line lastSt) = false :=
    no_track_in_start lastSt h
  have hd : ¬({ cur with start := some lastSt } = TimeDict.empty) := by
    intro he
    have := congrArg TimeDict.start he
    simp [TimeDict.empty] at this
  simp [read_loop, read_fields_start total idx lastSt cur h hne, htr, upd_cur, hd,
    List.isEmpty_iff]

theorem read_loop_end_step (total idx : Nat) (e lastSt : Str) (rest : List Str)
    (closed : List TimeDict) (cur : TimeDict) (h : clean e) (hne : e ≠ [])
    (hht : e.head? ≠ some '\t') (hidx : idx ≠ total - 1) :
    read_loop total (start_line lastSt) idx (end_line e :: rest) ⟨closed, cur, false⟩ =
      read_loop total (start_line lastSt) (idx + 1) rest
        ⟨closed, { cur with end_ := some e }, false⟩ := by
  have htr : contains_sub (['T', 'R', 'A', 'C', 'K'] : Str) (end_line e) = false :=
    no_track_in_end e h
  simp [read_loop, read_fields_end total idx e cur h hne hht hidx, htr, upd_cur,
    end_ne_start e lastSt]

/-- Well-formedness of one finalized entry as written for track `i` of
`n`: a label and a start are present and clean, the start is nonempty
and — except on the last track — differs from the last track's start
(the detector emits strictly increasing timestamps); every non-last
entry carries a nonempty clean end that does not begin with a tab. -/
def entry_ok (n : Nat) (lastSt : Str) (i : Nat) (t : TimeDict) : Prop :=
  (∃ lbl, t.chapter_type = some lbl ∧ clean lbl) ∧
  (∃ st, t.start = some st ∧ clean st ∧ st ≠ [] ∧ (i ≠ n → st ≠ lastSt)) ∧
  (i ≠ n → ∃ e, t.end_ = some e ∧ clean e ∧ e ≠ [] ∧ e.head? ≠ some '\t')

/-- All entries from track `i` on are well formed. -/
def entries_ok (n : Nat) (lastSt : Str) : Nat → List TimeDict → Prop
  | _, [] => True
  | i, t :: rest => entry_ok n lastSt i t ∧ entries_ok n lastSt (i + 1) rest

/-- The `start` field of the last entry. -/
def last_start : List TimeDict → Option Str
  | [] => none
  | [t] => t.start
  | _ :: t :: rest => last_start (t :: rest)

/-- What the deserializer reconstructs for tracks `i..` of `n`: every
field survives except the last track's `end`, which the serializer
never wrote. -/
def read_dicts (n : Nat) : Nat → List TimeDict → List TimeDict
  | _, [] => []
  | i, t :: rest => { t with end_ := if i = n then none else t.end_ } :: read_dicts n (i + 1) rest

theorem read_dicts_length (n : Nat) : ∀ (tc : List TimeDict) (i : Nat),
    (read_dicts n i tc).length = tc.length := by
  intro tc
  induction tc with
  | nil => intro i; rfl
  | cons t rest ih => intro i; simp [read_dicts, ih]

theorem read_dicts_get (n : Nat) : ∀ (tc : List TimeDict) (i j : Nat),
    (read_dicts n i tc)[j]? =
      (tc[j]?).map (fun t => { t with end_ := if i + j = n then none else t.end_ }) := by
  intro tc
  induction tc with
  | nil => intro i j; simp [read_dicts]
  | cons t rest ih =>
    intro i j
    cases j with
    | zero => simp [read_dicts]
    | succ j =>
      have harith : i + 1 + j = i + (j + 1) := by omega
      simp [read_dicts, ih (i + 1) j, harith]

theorem track_blocks_cons_last (n : Nat) (t : TimeDict) (lbl st : Str)
    (hct : t.chapter_type = some lbl) (hst : t.start = some st) :
    track_blocks n n [t] = some [track_line n, title_line lbl, start_line st] := by
  simp [track_blocks, hct, hst]

theorem track_blocks_cons_mid (n i : Nat) (t : TimeDict) (rest : List TimeDict)
    (lbl st e : Str) (restL : List Str)
    (hct : t.chapter_type = some lbl) (hst : t.start = some st) (hend : t.end_ = some e)
    (hi : i ≠ n) (hr : track_blocks n (i + 1) rest = some restL) :
    track_blocks n i (t :: rest) =
      some (track_line i :: title_line lbl :: start_line st :: end_line e :: restL) := by
  simp [track_blocks, hct, hst, hend, hi, hr]

theorem nl_notin_track (i : Nat) : '\n' ∉ track_line i := by
  intro h
  simp only [track_line] at h
  rcases List.mem_append.mp h with h1 | h1
  · rcases List.mem_append.mp h1 with h2 | h2
    · exact absurd h2 (by decide)
    · exact absurd (nat_str_digits i '\n' h2) (by decide)
  · exact absurd h1 (by decide)

theorem nl_notin_title (lbl : Str) (h : clean lbl) : '\n' ∉ title_line lbl := by
  intro hm
  simp only [title_line] at hm
  rcases List.mem_append.mp hm with h1 | h1
  · exact absurd h1 (by decide)
  · rcases List.mem_append.mp h1 with h2 | h2
    · exact h.1 h2
    · exact absurd h2 (by decide)

theorem nl_notin_start (st : Str) (h : clean st) : '\n' ∉ start_line st := by
  intro hm
  simp only [start_line] at hm
  rcases List.mem_append.mp hm with h1 | h1
  · exact absurd h1 (by decide)
  · exact h.1 h1

theorem nl_notin_end (e : Str) (h : clean e) : '\n' ∉ end_line e := by
  intro hm
  simp only [end_line] at hm
  rcases List.mem_append.mp hm with h1 | h1
  · exact absurd h1 (by decide)
  · exact h.1 h1

theorem track_blocks_props (n : Nat) (lastSt : Str) :
    ∀ (tc : List TimeDict) (i : Nat), i + tc.length = n + 1 → tc ≠ [] →
      entries_ok n lastSt i tc → last_start tc = some lastSt →
      ∃ bs, track_blocks n i tc = some bs ∧ (∀ l ∈ bs, '\n' ∉ l) ∧
        bs.getLast? = some (start_line lastSt) := by
  intro tc
  induction tc with
  | nil => intro i _ h2 _ _; exact absurd rfl h2
  | cons t rest ih =>
    intro i h1 _ hok hlast
    obtain ⟨⟨lbl, hct, hclbl⟩, ⟨st, hst, hcst, hstne, _⟩, hend⟩ := hok.1
    cases rest with
    | nil =>
      have hin : i = n := by simp at h1; omega
      subst hin
      have hstl : st = lastSt := by
        have h0 : last_start [t] = t.start := rfl
        rw [h0, hst] at hlast
        injection hlast
      subst hstl
      refine ⟨[track_line i, title_line lbl, start_line st],
        track_blocks_cons_last i t lbl st hct hst, ?_, by simp⟩
      intro l hl
      rcases List.mem_cons.mp hl with h2 | h2
      · subst h2; exact nl_notin_track i
      rcases List.mem_cons.mp h2 with h3 | h3
      · subst h3; exact nl_notin_title lbl hclbl
      rcases List.mem_cons.mp h3 with h4 | h4
      · subst h4; exact nl_notin_start st hcst
      · cases h4
    | cons t2 rest2 =>
      have hi : i ≠ n := by simp at h1; omega
      obtain ⟨e, hete, hce, hene, heht⟩ := hend hi
      have hlast2 : last_start (t2 :: rest2) = some lastSt := hlast
      obtain ⟨restL, hr, hnl, hgl⟩ :=
        ih (i + 1) (by simp at h1 ⊢; omega) (by simp) hok.2 hlast2
      refine ⟨track_line i :: title_line lbl :: start_line st :: end_line e :: restL,
        track_blocks_cons_mid n i t (t2 :: rest2) lbl st e restL hct hst hete hi hr, ?_, ?_⟩
      · intro l hl
        rcases List.mem_cons.mp hl with h2 | h2
        · subst h2; exact nl_notin_track i
        rcases List.mem_cons.mp h2 with h3 | h3
        · subst h3; exact nl_notin_title lbl hclbl
        rcases List.mem_cons.mp h3 with h4 | h4
        · subst h4; exact nl_notin_start st hcst
        rcases List.mem_cons.mp h4 with h5 | h5
        · subst h5; exact nl_notin_end e hce
        · exact hnl l h5
      · have hrne : restL ≠ [] := by
          intro h0; rw [h0] at hgl; simp at hgl
        have hsplit : track_line i :: title_line lbl :: start_line st :: end_line e :: restL
            = [track_line i, title_line lbl, start_line st, end_line e] ++ restL := rfl
        rw [hsplit, List.getLast?_append_of_ne_nil _ hrne, hgl]

theorem track_blocks_cons_mid_none (n i : Nat) (t : TimeDict) (rest : List TimeDict)
    (lbl st e : Str)
    (hct : t.chapter_type = some lbl) (hst : t.start = some st) (hend : t.end_ = some e)
    (hi : i ≠ n) (hr : track_blocks n (i + 1) rest = none) :
    track_blocks n i (t :: rest) = none := by
  simp [track_blocks, hct, hst, hend, hi, hr]

theorem timeDict_ext (a b : TimeDict) (h1 : a.start = b.start)
    (h2 : a.chapter_type = b.chapter_type) (h3 : a.end_ = b.end_) : a = b := by
  cases a; cases b; simp_all

theorem end_upd_ne_empty (d : TimeDict) (e : Str) :
    ¬({ d with end_ := some e } = TimeDict.empty) := by
  intro he
  have h0 := congrArg TimeDict.end_ he
  simp [TimeDict.empty] at h0

theorem read_blocks (n total : Nat) (lastSt : Str) :
    ∀ (tc : List TimeDict) (i idx : Nat) (bodies : List Str) (closed : List TimeDict)
      (cur : TimeDict),
      i + tc.length = n + 1 → tc ≠ [] →
      entries_ok n lastSt i tc → last_start tc = some lastSt →
      track_blocks n i tc = some bodies →
      idx + bodies.length + 1 = total →
      read_loop total (start_line lastSt) idx bodies ⟨closed, cur, false⟩ =
        ReadResult.ok ((closed ++ (if cur = TimeDict.empty then [] else [cur])) ++
          read_dicts n i tc) := by
  intro tc
  induction tc with
  | nil => intro i idx bodies closed cur _ h2 _ _ _ _; exact absurd rfl h2
  | cons t rest ih =>
    intro i idx bodies closed cur h1 _ hok hlast hb hinv
    obtain ⟨⟨lbl, hct, hclbl⟩, ⟨st, hst, hcst, hstne, hstlast⟩, hend⟩ := hok.1
    cases rest with
    | nil =>
      have hin : i = n := by simp at h1; omega
      subst hin
      have hstl : st = lastSt := by
        have h0 : last_start [t] = t.start := rfl
        rw [h0, hst] at hlast
        injection hlast
      subst hstl
      rw [track_blocks_cons_last i t lbl st hct hst] at hb
      injection hb with hb
      subst hb
      rw [read_loop_track_step, read_loop_title_step _ _ _ _ _ _ _ hclbl,
          read_loop_start_last _ _ _ _ _ hcst hstne]
      simp [read_dicts, hst, hct, TimeDict.empty]
    | cons t2 rest2 =>
      have hi : i ≠ n := by simp at h1; omega
      obtain ⟨e, hete, hce, hene, heht⟩ := hend hi
      have hlast2 : last_start (t2 :: rest2) = some lastSt := hlast
      cases hr : track_blocks n (i + 1) (t2 :: rest2) with
      | none =>
        rw [track_blocks_cons_mid_none n i t (t2 :: rest2) lbl st e hct hst hete hi hr] at hb
        exact absurd hb (by simp)
      | some restL =>
        rw [track_blocks_cons_mid n i t (t2 :: rest2) lbl st e restL hct hst hete hi hr] at hb
        injection hb with hb
        subst hb
        have hlen4 : idx + (restL.length + 4) + 1 = total := by
          simp at hinv; omega
        have hidx3 : idx + 1 + 1 + 1 ≠ total - 1 := by omega
        rw [read_loop_track_step, read_loop_title_step _ _ _ _ _ _ _ hclbl,
            read_loop_start_mid_step _ _ _ _ _ _ _ hcst hstne (hstlast hi),
            read_loop_end_step _ _ _ _ _ _ _ hce hene heht hidx3]
        rw [ih (i + 1) (idx + 1 + 1 + 1 + 1) restL _ _ (by simp at h1 ⊢; omega) (by simp)
          hok.2 hlast2 hr (by omega)]
        rw [if_neg (end_upd_ne_empty _ e)]
        have hstep : read_dicts n i (t :: t2 :: rest2) =
            { t with end_ := if i = n then none else t.end_ } ::
              read_dicts n (i + 1) (t2 :: rest2) := rfl
        rw [hstep]
        have hd3 : ({ { { TimeDict.empty with chapter_type := some lbl } with
            start := some st } with end_ := some e } : TimeDict) =
            { t with end_ := if i = n then none else t.end_ } :=
          timeDict_ext _ _ (by simp [hst, TimeDict.empty]) (by simp [hct, TimeDict.empty])
            (by simp [hi, hete, TimeDict.empty])
        rw [hd3]
        simp

/-- C1: sidecar round-trip.  For every finalized boundary list with at
least one entry — every entry carrying a clean label and a clean
nonempty start, non-last entries a clean nonempty end not starting with
a tab and a start differing from the last entry's (the detector's
timestamps are strictly increasing, so distinct) — deserializing the
file written by the serializer succeeds and yields a list of the same
length in the same order that reproduces every entry's label and start
exactly and reproduces end exactly for every entry except the last. -/
theorem cue_roundtrip (tc : List TimeDict) (stem lastSt : Str)
    (hne : tc ≠ []) (hstem : '\n' ∉ stem)
    (hok : entries_ok tc.length lastSt 1 tc) (hlast : last_start tc = some lastSt) :
    ∃ raw out,
      write_cue_file tc stem ⟨none⟩ = some (true, ⟨some raw⟩) ∧
      read_cue_file raw = ReadResult.ok out ∧
      out.length = tc.length ∧
      ∀ j, (out[j]?).map TimeDict.chapter_type = (tc[j]?).map TimeDict.chapter_type ∧
        (out[j]?).map TimeDict.start = (tc[j]?).map TimeDict.start ∧
        (j + 1 < tc.length → (out[j]?).map TimeDict.end_ = (tc[j]?).map TimeDict.end_) := by
  obtain ⟨bs, hbs, hnlb, hgl⟩ :=
    track_blocks_props tc.length lastSt tc 1 (by omega) hne hok hlast
  have hwrite : write_cue_file tc stem ⟨none⟩ =
      some (true, ⟨some ((file_line stem :: bs).map (fun l => l ++ ['\n']))⟩) := by
    simp [write_cue_file, hbs]
  have hcontent : ((file_line stem :: bs).map (fun l => l ++ ['\n'])).map py_strip_nl
      = file_line stem :: bs := by
    rw [List.map_map]
    have hid : ∀ l ∈ file_line stem :: bs, (py_strip_nl ∘ fun l => l ++ ['\n']) l = l := by
      intro l hl
      rcases List.mem_cons.mp hl with h | h
      · subst h
        refine strip_writer_line _ ?_
        intro hm
        simp only [file_line] at hm
        rcases List.mem_append.mp hm with h1 | h1
        · rcases List.mem_append.mp h1 with h2 | h2
          · exact absurd h2 (by decide)
          · exact hstem h2
        · exact absurd h1 (by decide)
      · exact strip_writer_line _ (hnlb l h)
    rw [List.map_congr_left hid]
    simp
  have hbsne : bs ≠ [] := by
    intro h0; rw [h0] at hgl; simp at hgl
  have hlastline : (file_line stem :: bs).getLastD [] = start_line lastSt := by
    rw [List.getLastD_eq_getLast?,
      show (file_line stem :: bs) = [file_line stem] ++ bs from rfl,
      List.getLast?_append_of_ne_nil _ hbsne, hgl]
    rfl
  have hread : read_cue_file ((file_line stem :: bs).map (fun l => l ++ ['\n']))
      = ReadResult.ok (read_dicts tc.length 1 tc) := by
    show read_loop (((file_line stem :: bs).map (fun l => l ++ ['\n'])).map py_strip_nl).length
        ((((file_line stem :: bs).map (fun l => l ++ ['\n'])).map py_strip_nl).getLastD [])
        0 ((((file_line stem :: bs).map (fun l => l ++ ['\n'])).map py_strip_nl).drop 1)
        ⟨[], TimeDict.empty, false⟩ = ReadResult.ok (read_dicts tc.length 1 tc)
    rw [hcontent, hlastline,
      show (file_line stem :: bs).drop 1 = bs from rfl,
      show (file_line stem :: bs).length = bs.length + 1 from by simp]
    have hrb := read_blocks tc.length (bs.length + 1) lastSt tc 1 0 bs [] TimeDict.empty
      (by omega) hne hok hlast hbs (by omega)
    simpa using hrb
  refine ⟨(file_line stem :: bs).map (fun l => l ++ ['\n']), read_dicts tc.length 1 tc,
    hwrite, hread, by rw [read_dicts_length], ?_⟩
  intro j
  rw [read_dicts_get]
  cases htj : tc[j]? with
  | none => simp
  | some t =>
    refine ⟨by simp, by simp, fun hj => ?_⟩
    have hne2 : ¬(1 + j = tc.length) := by omega
    simp [hne2]

/-- A concrete two-chapter finalized list for exercising the round
trip. -/
def cue_example : List TimeDict :=
  [⟨some "00:00:00".data, some "Chapter 01".data, some "00:09:59.000".data⟩,
   ⟨some "00:10:00.000".data, some "Chapter 02".data, some "01:00:00.000".data⟩]

theorem cue_roundtrip_witness :
    cue_example ≠ [] ∧
    ∃ raw out,
      write_cue_file cue_example "book".data ⟨none⟩ = some (true, ⟨some raw⟩) ∧
      read_cue_file raw = ReadResult.ok out ∧
      out.length = cue_example.length ∧
      ∀ j, (out[j]?).map TimeDict.chapter_type = (cue_example[j]?).map TimeDict.chapter_type ∧
        (out[j]?).map TimeDict.start = (cue_example[j]?).map TimeDict.start ∧
        (j + 1 < cue_example.length →
          (out[j]?).map TimeDict.end_ = (cue_example[j]?).map TimeDict.end_) :=
  ⟨by decide,
   cue_roundtrip cue_example "book".data "00:10:00.000".data (by decide) (by decide)
     ⟨⟨⟨"Chapter 01".data, rfl, ⟨by decide, by decide, by decide, by decide, by decide⟩⟩,
       ⟨"00:00:00".data, rfl, ⟨by decide, by decide, by decide, by decide, by decide⟩, by decide, fun _ => by decide⟩,
       fun _ => ⟨"00:09:59.000".data, rfl, ⟨by decide, by decide, by decide, by decide, by decide⟩, by decide, by decide⟩⟩,
      ⟨⟨"Chapter 02".data, rfl, ⟨by decide, by decide, by decide, by decide, by decide⟩⟩,
       ⟨"00:10:00.000".data, rfl, ⟨by decide, by decide, by decide, by decide, by decide⟩, by decide, fun h => absurd rfl h⟩,
       fun h => absurd rfl h⟩,
      trivial⟩
     rfl⟩
